import Mathlib

/-!
# Verification of the TikTok-Shop scraping engine

Shallow embedding of the core scraping engine of `didin-facil`
(`src/src-tauri/src/scraper/`): the locale-aware numeric parsers
(`parser.rs`), the proxy pool with health tracking (`proxy.rs`) and the
scrape orchestrator (`mod.rs`).

Modelling conventions:
* Rust `f64`/`f32` values are modelled as exact rationals (`ℚ`); the string
  grammars involved contain only plain decimal notation, where rational
  semantics coincides with the decimal meaning of the text.
* Rust `i32` results are modelled as `Int` with the saturating `as i32`
  cast made explicit.
* Strings are processed as `List Char` (all relevant characters are ASCII,
  so Rust byte indices coincide with character indices).
-/

namespace Scraper

/-! ## Numeric text parsing (`parser.rs`) -/

/-- Numeric value of a list of ASCII digits, most significant first
(the usual positional reading used by Rust's integer/float parsers). -/
def digitsVal (l : List Char) : Nat :=
  l.foldl (fun a c => 10 * a + (c.toNat - '0'.toNat)) 0

/-- Model of Rust `str::parse::<f64>` restricted to the unsigned
digits-and-dots strings produced by `parse_price_text`'s normalisation:
the string must consist of digits and at most one dot and contain at
least one digit (Rust accepts `"1."` and `".5"` but rejects `"."`, `""`
and any string with two dots). -/
def parseDigitsDots (l : List Char) : Option ℚ :=
  if (l.all fun c => c.isDigit || c == '.') && (l.count '.' ≤ 1 : Bool)
      && (l.any fun c => c.isDigit) then
    let ip := l.takeWhile (fun c => c ≠ '.')
    let fp := (l.dropWhile (fun c => c ≠ '.')).drop 1
    some ((digitsVal ip : ℚ) + (digitsVal fp : ℚ) / (10 : ℚ) ^ fp.length)
  else none

/-- Model of Rust `str::parse::<f64>` on plain decimal forms: an optional
single leading sign followed by a digits-and-dots body (scientific
notation, `inf` and `NaN` are outside the fragment the scraper feeds it). -/
def parseSignedDec (l : List Char) : Option ℚ :=
  match l with
  | '-' :: rest => (parseDigitsDots rest).map (fun q => -q)
  | '+' :: rest => parseDigitsDots rest
  | _ => parseDigitsDots l

/-- Index of the last occurrence of `c` (Rust `str::rfind` on ASCII text). -/
def lastIdx (c : Char) (l : List Char) : Option Nat :=
  l.enum.foldl (fun acc p => if p.2 = c then some p.1 else acc) none

/-- Rust `str::replace(',', ".")` on a character list. -/
def commaToDot (l : List Char) : List Char :=
  l.map (fun ch => if ch = ',' then '.' else ch)

/-- `normalized.parse::<f64>().unwrap_or(0.0)`. -/
def decValOr0 (l : List Char) : ℚ := (parseDigitsDots l).getD 0

/-- The cleaning pass of `parse_price_text`: keep only digits, commas and
dots. -/
def cleaned (l : List Char) : List Char :=
  l.filter (fun c => c.isDigit || c == ',' || c == '.')

/-- `TikTokParser::parse_price_text` (parser.rs:352-400), on `List Char`.
Keeps only digits, commas and dots, decides the decimal-separator
convention from the rightmost comma/dot, normalises to a dot-decimal
string and parses it, defaulting to `0.0`. -/
def parse_price_textL (text : List Char) : ℚ :=
  let cl := cleaned text
  if cl.isEmpty then 0
  else
    let lastComma := lastIdx ',' cl
    let lastDot := lastIdx '.' cl
    let normalized :=
      match lastComma, lastDot with
      | some c, some d =>
        if c > d then
          -- Format 1.234,56: remove dots, replace comma with dot
          commaToDot (cl.filter (fun ch => ch ≠ '.'))
        else
          -- Format 1,234.56: remove commas
          cl.filter (fun ch => ch ≠ ',')
      | some _, none =>
        -- Format 1234,56: replace comma with dot
        commaToDot cl
      | none, some d =>
        let dotCount := cl.count '.'
        if dotCount > 1 then
          -- Multiple dots = thousands separators
          cl.filter (fun ch => ch ≠ '.')
        else if cl.length - d - 1 = 3 then
          -- One dot, 3 digits after = thousands heuristic
          cl.filter (fun ch => ch ≠ '.')
        else cl
      | none, none => cl
    decValOr0 normalized

/-- `TikTokParser::parse_price_text` on `String`. -/
def parse_price_text (s : String) : ℚ := parse_price_textL s.toList

/-- ASCII lowercasing (the fragment of Rust `str::to_lowercase` relevant
to the ASCII marker characters `k`/`m`). -/
def asciiLower (c : Char) : Char :=
  if 'A' ≤ c ∧ c ≤ 'Z' then Char.ofNat (c.toNat + 32) else c

/-- Rust `str::trim_end_matches(c)`: remove every trailing occurrence. -/
def trimEndMatches (c : Char) (l : List Char) : List Char :=
  (l.reverse.dropWhile (fun x => x == c)).reverse

/-- Rust `str::trim`: strip whitespace from both ends. -/
def trimWs (l : List Char) : List Char :=
  ((l.dropWhile Char.isWhitespace).reverse.dropWhile Char.isWhitespace).reverse

def i32Max : Int := 2147483647
def i32Min : Int := -2147483648

/-- Rust `expr as i32` applied to an `f64`: truncate toward zero, then
saturate to the `i32` range. -/
def ratToI32 (q : ℚ) : Int :=
  let t : Int := if 0 ≤ q then ⌊q⌋ else ⌈q⌉
  if t > i32Max then i32Max else if t < i32Min then i32Min else t

/-- `TikTokParser::parse_sales_text` (parser.rs:414-442), on `List Char`.
A (case-insensitive) `k`/`m` occurrence selects a multiplier, the text
with trailing `k`/`m` stripped and comma normalised is parsed as a float;
otherwise (or if that parse fails) all digits are extracted and parsed
as an `i32` (`unwrap_or(0)`). -/
def parse_sales_textL (text : List Char) : Int :=
  let lower := text.map asciiLower
  let mult : ℚ :=
    if lower.contains 'k' then 1000
    else if lower.contains 'm' then 1000000
    else 1
  let fallback : Int :=
    let ds := text.filter Char.isDigit
    if ds.isEmpty then 0
    else if (digitsVal ds : Int) > i32Max then 0
    else (digitsVal ds : Int)
  if mult > 1 then
    let numPart := commaToDot (trimWs (trimEndMatches 'm' (trimEndMatches 'k' lower)))
    match parseSignedDec numPart with
    | some v => ratToI32 (v * mult)
    | none => fallback
  else fallback

/-- `TikTokParser::parse_sales_text` on `String`. -/
def parse_sales_text (s : String) : Int := parse_sales_textL s.toList

/-! ## Scrape orchestrator (`mod.rs`)

`TikTokScraper::start` / `TikTokScraper::scrape_products` are modelled as a
deterministic interpreter over an environment that supplies the outcomes of
the browser interactions (navigation success, fetched page content, parsed
product batches, page heights, memory pressure) and the schedule of the
caller's stop requests.  Browser launch, page creation, stealth injection,
the parser call and the scroll `evaluate` are modelled as succeeding (their
failure paths are not exercised by any claim); the proxy handed to the
browser has no observable effect in the model.  Log entries are recorded as
short tags instead of the formatted Portuguese strings (the `[HH:MM:SS]`
timestamp prefix is I/O formatting); only their identity, count and order
matter.  Times and sleeps are dropped; `status.lock()` acquisitions that
read `is_running` are modelled as numbered read events so that a concurrent
`stop()` (which sets `is_running = false`, permanently) can occur between
any two of them. -/

/-- The slice of `Product` (models.rs) that the orchestrator inspects:
deduplication reads `tiktok_id` only; title and price feed log lines. -/
structure SProduct where
  tiktok_id : String
  title : String
  price : ℚ
deriving DecidableEq, Repr

/-- The fields of `scraper::models::ScraperConfig` that
`scrape_products` branches on. -/
structure SConfig where
  categories : List String
  max_products : Nat
  max_retries : Nat
  safety_switch_enabled : Bool
  db_path : Option String
deriving Repr

/-- Environment of one run: outcomes of the awaited browser operations,
indexed by category position (and scroll iteration), plus the stop
schedule. `stopAt = some n` means the caller's `stop()` lands before the
`n`-th read of `status.is_running` (all reads from the `n`-th on see
`false`); `stopAt = none` means the caller never stops the run.
`scrollFuel` bounds the scroll loop's iterations in the model (the Rust
loop has no intrinsic bound). -/
structure RunEnv where
  navOk : Nat → Nat → Bool
  content : Nat → String
  parsed : Nat → Nat → List SProduct
  height : Nat → Nat → Option Int
  memHigh : Nat → Bool
  stopAt : Option Nat
  scrollFuel : Nat

/-- `ScraperStatus` (models.rs:325-334) plus the two external effects the
claims track: pages persisted via `database::save_error_page`, and whether
`BrowserManager::stop` has been called. `checks` counts the
`is_running` reads performed so far (model instrumentation). -/
structure RunState where
  checks : Nat
  is_running : Bool
  progress : ℚ
  products_found : Int
  errors : List String
  logs : List String
  status_message : Option String
  savedPages : List (String × String)
  browserStopped : Bool
deriving Repr

def initState : RunState :=
  { checks := 0, is_running := false, progress := 0, products_found := 0,
    errors := [], logs := [], status_message := none, savedPages := [],
    browserStopped := false }

/-- One `self.status.lock().await.is_running` read: its value under the
stop schedule, together with the state with the read counted. -/
def readRunning (env : RunEnv) (st : RunState) : Bool × RunState :=
  (match env.stopAt with
   | some n => decide (st.checks < n)
   | none => true,
   { st with checks := st.checks + 1 })

/-- The log push of `TikTokScraper::add_log` (mod.rs:69-80): push, then
drop the oldest entry if the length exceeds 50. -/
def pushLog (logs : List String) (m : String) : List String :=
  let l := logs ++ [m]
  if l.length > 50 then l.drop 1 else l

/-- `TikTokScraper::add_log`. -/
def addLog (st : RunState) (m : String) : RunState :=
  { st with logs := pushLog st.logs m }

/-- Substring test (Rust `str::contains(&str)`). -/
def strContains (hay pat : String) : Bool :=
  decide (pat.toList <:+: hay.toList)

/-- The block/verification/captcha markers checked at mod.rs:279-281. -/
def detectionMarker (content : String) : Bool :=
  strContains content "captcha" || strContains content "verify" ||
    strContains content "Access Denied"

/-- Category-to-URL resolution (mod.rs:191-197). -/
def categoryUrl (category : String) : String :=
  if category == "trending" then "https://shop.tiktok.com/browse"
  else if category.startsWith "http" || category.startsWith "file" then category
  else "https://shop.tiktok.com/search?keyword=" ++ category

inductive NavOutcome | ok | stopped | failed
deriving DecidableEq, Repr

/-- The navigation retry loop with exponential backoff (mod.rs:217-251),
as a function of the attempt counter; `fuel` is an upper bound on the
remaining iterations (`max_retries + 1 - attempt` at the entry point, so
the `fuel = 0` case is never reached from `scrapeProducts`).
`.failed` corresponds to `return Err("Failed to navigate: ...")`. -/
def navLoop (env : RunEnv) (cfg : SConfig) (i : Nat) :
    Nat → Nat → RunState → NavOutcome × RunState
  | 0, _, st => (.failed, st)
  | fuel + 1, attempt, st =>
    let rr := readRunning env st
    if !rr.1 then (.stopped, addLog rr.2 "log_stopped")
    else if env.navOk i attempt then (.ok, rr.2)
    else if attempt + 1 > cfg.max_retries then (.failed, rr.2)
    else
      let rr2 := readRunning env rr.2
      if !rr2.1 then (.stopped, addLog rr2.2 "log_stopped")
      else navLoop env cfg i fuel (attempt + 1) (addLog rr2.2 "log_retry")

/-- `if new_count > 0 { add_log(...) }` (mod.rs:339-342). -/
def noteNewCount (st : RunState) (newCount : Nat) : RunState :=
  if newCount > 0 then addLog st "log_new_count" else st

/-- A conditional log line (used for the memory-pressure warning,
mod.rs:204-214, and the safety-switch banner, mod.rs:88-92). -/
def iteLog (b : Bool) (st : RunState) (m : String) : RunState :=
  if b then addLog st m else st

/-- One product's merge step (mod.rs:323-337): skip if a collected product
already has the same `tiktok_id`, otherwise log it and append. The third
component is `new_count`. -/
def mergeOne (acc : List SProduct × RunState × Nat) (p : SProduct) :
    List SProduct × RunState × Nat :=
  let (prods, st, newCount) := acc
  if prods.any (fun q => q.tiktok_id == p.tiktok_id) then acc
  else (prods ++ [p], addLog st ("log_found:" ++ p.tiktok_id), newCount + 1)

/-- The `for p in products` merge loop of one scroll iteration. -/
def mergeBatch (prods : List SProduct) (st : RunState) (batch : List SProduct) :
    List SProduct × RunState × Nat :=
  batch.foldl mergeOne (prods, st, 0)

/-- The extract-and-scroll loop (mod.rs:307-388). `iter` indexes the
environment's per-iteration answers; `prevHeight`/`noChange` are the
scroll-termination trackers (`previous_height`, `no_change_count`). -/
def scrollLoop (env : RunEnv) (cfg : SConfig) (i : Nat) :
    Nat → Nat → Int → Nat → List SProduct → RunState → List SProduct × RunState
  | 0, _, _, _, prods, st => (prods, st)
  | fuel + 1, iter, prevHeight, noChange, prods, st =>
    if prods.length ≥ cfg.max_products then (prods, st)
    else
      let rr := readRunning env st
      if !rr.1 then (prods, rr.2)
      else
        let st1 := addLog rr.2 "log_parsing"
        let mb := mergeBatch prods st1 (env.parsed i iter)
        let st2 := noteNewCount mb.2.1 mb.2.2
        let st3 := { st2 with
          products_found := (mb.1.length : Int),
          progress :=
            min ((mb.1.length : ℚ) / (cfg.max_products : ℚ) * 100) 99 }
        if mb.1.length ≥ cfg.max_products then (mb.1, st3)
        else
          let rr2 := readRunning env (addLog st3 "log_scroll")
          if !rr2.1 then (mb.1, rr2.2)
          else
            let curHeight := (env.height i iter).getD prevHeight
            if curHeight = prevHeight then
              if noChange + 1 ≥ 3 then (mb.1, addLog rr2.2 "log_end_of_page")
              else scrollLoop env cfg i fuel (iter + 1) curHeight (noChange + 1)
                mb.1 rr2.2
            else scrollLoop env cfg i fuel (iter + 1) curHeight 0 mb.1 rr2.2

/-- The safety-switch check on fetched content (mod.rs:277-299): on a
detection marker, log the critical warning, persist the (url, html) pair
when a database path is configured, and report whether the run must abort
(`true` exactly when the safety switch is enabled). -/
def safetyCheck (cfg : SConfig) (url content : String) (st : RunState) :
    Bool × RunState :=
  if detectionMarker content then
    let st := addLog st "log_detection"
    let st :=
      match cfg.db_path with
      | some _ => { st with savedPages := st.savedPages ++ [(url, content)] }
      | none => st
    (cfg.safety_switch_enabled, st)
  else (false, st)

/-- `self.browser.stop()` followed by `Ok(all_products)`
(mod.rs:391-396): the single exit of the category loop. -/
def finishRun (prods : List SProduct) (st : RunState) :
    Except String (List SProduct) × RunState :=
  (.ok prods, { st with browserStopped := true })

/-- The per-category loop of `scrape_products` (mod.rs:179-389), over the
remaining categories paired with their positions. Early `return Err`
paths (`navLoop` exhausting retries; the safety switch firing) leave the
function without reaching `finishRun`. -/
def catLoop (env : RunEnv) (cfg : SConfig) :
    List (Nat × String) → List SProduct → RunState →
    Except String (List SProduct) × RunState
  | [], prods, st => finishRun prods st
  | (i, category) :: rest, prods, st =>
    let rr := readRunning env st
    if !rr.1 then finishRun prods (addLog rr.2 "log_stopped")
    else if prods.length ≥ cfg.max_products then finishRun prods rr.2
    else
      let url := categoryUrl category
      let st1 := addLog rr.2 ("log_navigating:" ++ category)
      let st2 := iteLog (env.memHigh i) st1 "log_memory_full"
      let nv := navLoop env cfg i (cfg.max_retries + 1) 0 st2
      if nv.1 = .failed then (.error "Failed to navigate", nv.2)
      else
        let rr2 := readRunning env nv.2
        if !rr2.1 then finishRun prods rr2.2
        else
          let rr3 := readRunning env (addLog rr2.2 "log_waiting_load")
          if !rr3.1 then finishRun prods rr3.2
          else
            let rr4 := readRunning env rr3.2
            if !rr4.1 then finishRun prods rr4.2
            else
              let sc := safetyCheck cfg url (env.content i) rr4.2
              if sc.1 then
                (.error "Safety Switch triggered: Bot detection", sc.2)
              else
                let rr5 := readRunning env sc.2
                let sl := scrollLoop env cfg i env.scrollFuel 0 0 0 prods rr5.2
                catLoop env cfg rest sl.1 sl.2

/-- `TikTokScraper::scrape_products` (mod.rs:128-397). -/
def scrapeProducts (env : RunEnv) (cfg : SConfig) (st : RunState) :
    Except String (List SProduct) × RunState :=
  let st := { st with status_message := some "Iniciando navegador..." }
  let st := { st with status_message := some "Navegador iniciado" }
  let cats :=
    if cfg.categories.isEmpty then ["trending"] else cfg.categories
  catLoop env cfg cats.enum [] st

/-- The status updates `TikTokScraper::start` performs before calling
`scrape_products` (mod.rs:83-99). -/
def startPrelude (cfg : SConfig) : RunState :=
  { iteLog cfg.safety_switch_enabled (addLog initState "log_start")
      "log_safety_on" with
    is_running := true, progress := 0,
    status_message := some "Inicializando..." }

/-- The status freeze `TikTokScraper::start` performs after
`scrape_products` returns (mod.rs:103-125): `is_running = false`,
`progress = 100`, final counts or the failure reason, and a final log
line. -/
def finalizeStatus (res : Except String (List SProduct)) (st : RunState) :
    RunState :=
  let st1 := { st with
    is_running := false, progress := 100,
    status_message := some "Finalizado" }
  let st2 :=
    match res with
    | .ok products => { st1 with products_found := (products.length : Int) }
    | .error e =>
      { st1 with errors := st1.errors ++ ["Falha no scraping: " ++ e] }
  addLog st2 "log_finished"

/-- `TikTokScraper::start` (mod.rs:82-126): mark the status running,
delegate to `scrape_products`, then freeze the status and record the
outcome. -/
def startRun (env : RunEnv) (cfg : SConfig) :
    Except String (List SProduct) × RunState :=
  let rs := scrapeProducts env cfg (startPrelude cfg)
  (rs.1, finalizeStatus rs.1 rs.2)

/-! ## Proxy pool (`proxy.rs`)

Timestamps (`chrono::Utc::now`, `Duration::minutes`) are modelled as an
explicit `now : Int` parameter measured in minutes; `f32` failure rates
are modelled exactly (`failure_count / max(total_requests, 1) > 0.5`
becomes `2 * failure_count > max total_requests 1` over the integers). -/

/-- `scraper::models::ProxyConfig`. -/
structure ProxyConfig where
  server : String
  username : Option String
  password : Option String
deriving DecidableEq, Repr

/-- `ProxyStats` (proxy.rs:11-19). -/
structure ProxyStats where
  success_count : Nat
  failure_count : Nat
  total_requests : Nat
  last_used : Option Int
  is_blocked : Bool
  blocked_until : Option Int
deriving DecidableEq, Repr

def ProxyStats.default : ProxyStats :=
  { success_count := 0, failure_count := 0, total_requests := 0,
    last_used := none, is_blocked := false, blocked_until := none }

/-- `ProxyPool` (proxy.rs:21-25); the `HashMap<String, ProxyStats>` is an
association list keyed by `server` (first match wins, as for a map with
one entry per key). -/
structure ProxyPool where
  proxies : List ProxyConfig
  stats : List (String × ProxyStats)
  current_index : Nat
deriving Repr

/-- Update the (unique) entry of the stats map with the given key. -/
def updateStats (f : ProxyStats → ProxyStats) (server : String) :
    List (String × ProxyStats) → List (String × ProxyStats)
  | [] => []
  | (k, v) :: rest =>
    if k == server then (k, f v) :: rest
    else (k, v) :: updateStats f server rest

/-- First index at which `sep` occurs as a contiguous sublist. -/
def findSub (sep : List Char) : List Char → Option Nat
  | [] => none
  | c :: rest =>
    if sep.isPrefixOf (c :: rest) then some 0
    else (findSub sep rest).map (· + 1)

/-- Rust `str::split(sep)` for a non-empty separator (fuelled by the
input length; each step consumes at least one character). -/
def splitSepGo (sep : List Char) : Nat → List Char → List (List Char)
  | 0, l => [l]
  | fuel + 1, l =>
    match findSub sep l with
    | none => [l]
    | some i => l.take i :: splitSepGo sep fuel (l.drop (i + sep.length))

def splitSep (sep l : List Char) : List (List Char) :=
  splitSepGo sep (l.length + 1) l

/-- `ProxyPool::parse_proxy_url` (proxy.rs:46-80): split off an optional
`scheme://` (defaulting to `http`), split credentials at the last `@`,
keep them only when they are exactly `user:pass`, and rebuild the server
string. Note that every input produces `Some` config. -/
def parse_proxy_url (url : String) : Option ProxyConfig :=
  let parts := splitSep "://".toList url.toList
  let pr :=
    if parts.length > 1 then ((parts.get? 0).getD [], (parts.get? 1).getD [])
    else ("http".toList, url.toList)
  let ah :=
    match lastIdx '@' pr.2 with
    | some i => (some (pr.2.take i), pr.2.drop (i + 1))
    | none => (none, pr.2)
  let server := String.mk (pr.1 ++ "://".toList ++ ah.2)
  let creds :=
    match ah.1 with
    | some authStr =>
      match splitSep [':'] authStr with
      | [u, p] => (some (String.mk u), some (String.mk p))
      | _ => (none, none)
    | none => (none, none)
  some { server := server, username := creds.1, password := creds.2 }

/-- `ProxyPool::new` (proxy.rs:28-44). -/
def ProxyPool.new (proxy_urls : List String) : ProxyPool :=
  let proxies := proxy_urls.filterMap parse_proxy_url
  { proxies := proxies,
    stats := proxies.map (fun p => (p.server, ProxyStats.default)),
    current_index := 0 }

/-- The availability test of `ProxyPool::get_available` (proxy.rs:92-98):
not blocked, or the cooldown deadline has strictly passed. -/
def proxyAvailable (stats : List (String × ProxyStats)) (now : Int)
    (proxy : ProxyConfig) : Bool :=
  match stats.lookup proxy.server with
  | some s => !s.is_blocked || (match s.blocked_until with
      | some t => decide (now > t)
      | none => false)
  | none => true

/-- `ProxyPool::get_available` (proxy.rs:86-101). -/
def ProxyPool.get_available (pool : ProxyPool) (now : Int) : List ProxyConfig :=
  pool.proxies.filter (proxyAvailable pool.stats now)

/-- `ProxyPool::get_next` (proxy.rs:103-122): advance the round-robin
index over the currently available subset, stamp `last_used` and bump
`total_requests` for the chosen endpoint. -/
def ProxyPool.get_next (pool : ProxyPool) (now : Int) :
    Option ProxyConfig × ProxyPool :=
  match pool.get_available now with
  | [] => (none, pool)
  | a :: rest =>
    let available := a :: rest
    let index := (pool.current_index + 1) % available.length
    let proxy := available.get ⟨index, Nat.mod_lt _ (Nat.succ_pos rest.length)⟩
    let stats := updateStats
      (fun s => { s with last_used := some now,
                         total_requests := s.total_requests + 1 })
      proxy.server pool.stats
    (some proxy, { pool with current_index := index, stats := stats })

/-- `ProxyPool::report_success` (proxy.rs:124-130). -/
def ProxyPool.report_success (pool : ProxyPool) (proxy : ProxyConfig) :
    ProxyPool :=
  let stats := updateStats
    (fun s => { s with success_count := s.success_count + 1 })
    proxy.server pool.stats
  { pool with stats := stats }

/-- The stats update of `ProxyPool::report_failure` (proxy.rs:132-147):
increment the failure counter, then block until `now + cooldown` when the
failure rate exceeds 1/2 over at least 5 total requests. -/
def reportFailureStats (block_minutes : Option Int) (now : Int)
    (s : ProxyStats) : ProxyStats :=
  let s := { s with failure_count := s.failure_count + 1 }
  if 2 * s.failure_count > max s.total_requests 1 ∧ 5 ≤ s.total_requests then
    { s with is_blocked := true,
             blocked_until := some (now + block_minutes.getD 30) }
  else s

/-- `ProxyPool::report_failure`. -/
def ProxyPool.report_failure (pool : ProxyPool) (proxy : ProxyConfig)
    (block_minutes : Option Int) (now : Int) : ProxyPool :=
  let stats := updateStats (reportFailureStats block_minutes now)
    proxy.server pool.stats
  { pool with stats := stats }

/-! ## Verification infrastructure and concrete fixtures -/

/-- Frame facts preserved by every non-terminal orchestrator step:
`browserStopped` untouched, rolling log within its cap, `is_running`-read
counter non-decreasing. -/
def StateFrame (st st' : RunState) : Prop :=
  st'.browserStopped = st.browserStopped ∧
    (st.logs.length ≤ 50 → st'.logs.length ≤ 50) ∧
    st.checks ≤ st'.checks

/-- A benign environment: navigation always succeeds, pages are empty,
nothing is parsed, heights are constant, no stop is requested. -/
def benignEnv : RunEnv :=
  { navOk := fun _ _ => true, content := fun _ => "",
    parsed := fun _ _ => [], height := fun _ _ => some 100,
    memHigh := fun _ => false, stopAt := none, scrollFuel := 5 }

/-- Fixture for C2: navigation always fails, one category, no retries. -/
def c2Env : RunEnv :=
  { navOk := fun _ _ => false, content := fun _ => "",
    parsed := fun _ _ => [], height := fun _ _ => none,
    memHigh := fun _ => false, stopAt := none, scrollFuel := 3 }

def c2Cfg : SConfig :=
  { categories := ["beleza"], max_products := 5, max_retries := 0,
    safety_switch_enabled := true, db_path := none }

/-- Fixture for C3: the single fetched page carries a captcha marker. -/
def c3Env : RunEnv :=
  { navOk := fun _ _ => true, content := fun _ => "<html>captcha</html>",
    parsed := fun _ _ => [], height := fun _ _ => some 100,
    memHigh := fun _ => false, stopAt := none, scrollFuel := 2 }

def c3CfgOn : SConfig :=
  { categories := ["trending"], max_products := 5, max_retries := 1,
    safety_switch_enabled := true, db_path := some "didin.db" }

def c3CfgOff : SConfig :=
  { categories := ["trending"], max_products := 5, max_retries := 1,
    safety_switch_enabled := false, db_path := some "didin.db" }

/-- Fixture for C5: the caller's stop lands before the run's 6th
`is_running` read, which falls inside the first scroll iteration. -/
def c5Env : RunEnv :=
  { navOk := fun _ _ => true, content := fun _ => "",
    parsed := fun _ i => [⟨toString i, "p", 10⟩],
    height := fun _ _ => some 100, memHigh := fun _ => false,
    stopAt := some 6, scrollFuel := 10 }

def c5Cfg : SConfig :=
  { categories := ["trending"], max_products := 100, max_retries := 3,
    safety_switch_enabled := true, db_path := none }

/-- Fixture for C8: every scroll iteration parses the same two products,
one of them a duplicate of the other by source id. -/
def c8Env : RunEnv :=
  { navOk := fun _ _ => true, content := fun _ => "",
    parsed := fun _ _ => [⟨"111", "a", 1⟩, ⟨"111", "b", 2⟩, ⟨"222", "c", 3⟩],
    height := fun _ _ => some 100, memHigh := fun _ => false,
    stopAt := none, scrollFuel := 4 }

def c8Cfg : SConfig :=
  { categories := ["a", "b"], max_products := 50, max_retries := 2,
    safety_switch_enabled := true, db_path := none }

/-- Fixture for C4: a two-endpoint pool; the first endpoint has 2
failures out of 5 recorded requests, so one more failure blocks it. -/
def c4Stats : ProxyStats :=
  { success_count := 1, failure_count := 2, total_requests := 5,
    last_used := some 0, is_blocked := false, blocked_until := none }

def c4Proxy : ProxyConfig :=
  { server := "http://p1.example.com:8080", username := none,
    password := none }

def c4Proxy2 : ProxyConfig :=
  { server := "http://p2.example.com:8080", username := none,
    password := none }

def c4Pool : ProxyPool :=
  { proxies := [c4Proxy, c4Proxy2],
    stats := [(c4Proxy.server, c4Stats),
      (c4Proxy2.server, ProxyStats.default)],
    current_index := 0 }

end Scraper

namespace Scraper

/-! ## Lemmas: the rolling log -/

theorem pushLog_length_le (logs : List String) (m : String)
    (h : logs.length ≤ 50) : (pushLog logs m).length ≤ 50 := by
  simp only [pushLog]
  split <;> rename_i hc <;>
    simp only [List.length_drop, List.length_append, List.length_singleton,
      List.length_cons, List.length_nil] at hc ⊢ <;>
    omega

theorem pushLog_eq_rtake (logs : List String) (m : String)
    (h : logs.length ≤ 50) : pushLog logs m = (logs ++ [m]).rtake 50 := by
  simp only [pushLog, List.rtake]
  split <;> rename_i hlen
  · have e : (logs ++ [m]).length - 50 = 1 := by
      simp only [List.length_append, List.length_singleton]
      simp only [List.length_append, List.length_singleton] at hlen
      omega
    rw [e]
  · have e : (logs ++ [m]).length - 50 = 0 := by
      simp only [List.length_append, List.length_singleton]
      simp only [List.length_append, List.length_singleton] at hlen
      omega
    rw [e, List.drop_zero]

theorem rtake50_append (a ms : List String) (h : a.length ≤ 51) :
    (a.rtake 50 ++ ms).rtake 50 = (a ++ ms).rtake 50 := by
  rcases Nat.lt_or_ge a.length 51 with hlt | hge
  · have e : a.rtake 50 = a := by
      have e0 : a.length - 50 = 0 := by omega
      simp [List.rtake, e0]
    rw [e]
  · have ha : a.length = 51 := by omega
    have key : a.drop 1 ++ ms = (a ++ ms).drop 1 :=
      (List.drop_append_of_le_length (by omega)).symm
    simp only [List.rtake, List.length_append, List.length_drop, ha, key,
      List.drop_drop]
    congr 1
    omega

theorem foldl_pushLog_eq_rtake (msgs : List String) :
    ∀ init : List String, init.length ≤ 50 →
      msgs.foldl pushLog init = (init ++ msgs).rtake 50 := by
  induction msgs with
  | nil =>
    intro init h
    simp only [List.foldl_nil, List.append_nil, List.rtake]
    have : init.length - 50 = 0 := by omega
    simp [this]
  | cons m ms ih =>
    intro init h
    rw [List.foldl_cons, ih (pushLog init m) (pushLog_length_le init m h),
      pushLog_eq_rtake init m h,
      rtake50_append (init ++ [m]) ms (by simp; omega)]
    simp

/-! ## Frame lemmas for the orchestrator interpreter

Each step function leaves `browserStopped` untouched (only `finishRun`
sets it), keeps the rolling log within its 50-entry bound, and only ever
increases the `is_running`-read counter. -/

theorem StateFrame.refl (st : RunState) : StateFrame st st :=
  ⟨rfl, fun h => h, Nat.le_refl _⟩

theorem StateFrame.trans {s1 s2 s3 : RunState} (h1 : StateFrame s1 s2)
    (h2 : StateFrame s2 s3) : StateFrame s1 s3 :=
  ⟨h2.1.trans h1.1, fun h => h2.2.1 (h1.2.1 h), h1.2.2.trans h2.2.2⟩

theorem addLog_frame (st : RunState) (m : String) :
    StateFrame st (addLog st m) :=
  ⟨rfl, fun h => pushLog_length_le _ _ h, Nat.le_refl _⟩

theorem readRunning_frame (env : RunEnv) (st : RunState) :
    StateFrame st (readRunning env st).2 :=
  ⟨rfl, fun h => h, Nat.le_succ _⟩

theorem navLoop_frame (env : RunEnv) (cfg : SConfig) (i : Nat) :
    ∀ (fuel attempt : Nat) (st : RunState),
      StateFrame st (navLoop env cfg i fuel attempt st).2 := by
  intro fuel
  induction fuel with
  | zero => intro attempt st; exact StateFrame.refl st
  | succ fuel ih =>
    intro attempt st
    simp only [navLoop]
    split
    · exact (readRunning_frame env st).trans (addLog_frame _ _)
    · split
      · exact readRunning_frame env st
      · split
        · exact readRunning_frame env st
        · split
          · exact ((readRunning_frame env st).trans
              (readRunning_frame env _)).trans (addLog_frame _ _)
          · exact (((readRunning_frame env st).trans
              (readRunning_frame env _)).trans (addLog_frame _ _)).trans
              (ih _ _)

theorem mergeOne_frame (acc : List SProduct × RunState × Nat) (p : SProduct) :
    StateFrame acc.2.1 (mergeOne acc p).2.1 := by
  obtain ⟨prods, st, n⟩ := acc
  simp only [mergeOne]
  split
  · exact StateFrame.refl st
  · exact addLog_frame st _

theorem mergeBatch_frame (prods : List SProduct) (st : RunState)
    (batch : List SProduct) : StateFrame st (mergeBatch prods st batch).2.1 := by
  suffices h : ∀ (batch : List SProduct) (acc : List SProduct × RunState × Nat),
      StateFrame acc.2.1 (batch.foldl mergeOne acc).2.1 by
    exact h batch (prods, st, 0)
  intro batch
  induction batch with
  | nil => intro acc; exact StateFrame.refl _
  | cons p ps ih =>
    intro acc
    exact (mergeOne_frame acc p).trans (ih (mergeOne acc p))

theorem noteNewCount_frame (st : RunState) (n : Nat) :
    StateFrame st (noteNewCount st n) := by
  simp only [noteNewCount]
  split
  · exact addLog_frame st _
  · exact StateFrame.refl st

theorem iteLog_frame (b : Bool) (st : RunState) (m : String) :
    StateFrame st (iteLog b st m) := by
  simp only [iteLog]
  split
  · exact addLog_frame st m
  · exact StateFrame.refl st

theorem setCounts_frame (st : RunState) (pf : Int) (pr : ℚ) :
    StateFrame st { st with products_found := pf, progress := pr } :=
  ⟨rfl, fun h => h, Nat.le_refl _⟩

theorem scrollLoop_frame (env : RunEnv) (cfg : SConfig) (i : Nat) :
    ∀ (fuel iter : Nat) (prevHeight : Int) (noChange : Nat)
      (prods : List SProduct) (st : RunState),
      StateFrame st
        (scrollLoop env cfg i fuel iter prevHeight noChange prods st).2 := by
  intro fuel
  induction fuel with
  | zero => intro _ _ _ _ st; exact StateFrame.refl st
  | succ fuel ih =>
    intro iter prevHeight noChange prods st
    simp only [scrollLoop]
    set mb := mergeBatch prods (addLog (readRunning env st).2 "log_parsing")
      (env.parsed i iter) with hmb
    have hbase : StateFrame st mb.2.1 :=
      ((readRunning_frame env st).trans (addLog_frame _ _)).trans
        (mergeBatch_frame _ _ _)
    have h3 : StateFrame st
        ({ noteNewCount mb.2.1 mb.2.2 with
            products_found := (mb.1.length : Int),
            progress := min ((mb.1.length : ℚ) / (cfg.max_products : ℚ) * 100)
              99 } : RunState) :=
      (hbase.trans (noteNewCount_frame _ _)).trans (setCounts_frame _ _ _)
    split
    · exact StateFrame.refl st
    · split
      · exact readRunning_frame env st
      · split
        · exact h3
        · have h5 : StateFrame st
              (readRunning env (addLog _ "log_scroll")).2 :=
            h3.trans ((addLog_frame _ _).trans (readRunning_frame env _))
          split
          · exact h5
          · split
            · split
              · exact h5.trans (addLog_frame _ _)
              · exact h5.trans (ih _ _ _ _ _)
            · exact h5.trans (ih _ _ _ _ _)

theorem safetyCheck_frame (cfg : SConfig) (url content : String)
    (st : RunState) : StateFrame st (safetyCheck cfg url content st).2 := by
  simp only [safetyCheck]
  split
  · have h1 : StateFrame st (addLog st "log_detection") := addLog_frame _ _
    split
    · exact h1.trans ⟨rfl, fun h => h, Nat.le_refl _⟩
    · exact h1
  · exact StateFrame.refl st

theorem catLoop_logs_le (env : RunEnv) (cfg : SConfig) :
    ∀ (cats : List (Nat × String)) (prods : List SProduct) (st : RunState),
      st.logs.length ≤ 50 → (catLoop env cfg cats prods st).2.logs.length ≤ 50 := by
  intro cats
  induction cats with
  | nil => intro prods st h; exact h
  | cons c rest ih =>
    obtain ⟨i, category⟩ := c
    intro prods st h
    simp only [catLoop]
    set st2 := iteLog (env.memHigh i)
      (addLog (readRunning env st).2 ("log_navigating:" ++ category))
      "log_memory_full" with hst2
    set nv := navLoop env cfg i (cfg.max_retries + 1) 0 st2 with hnv
    have f1 : StateFrame st st2 :=
      ((readRunning_frame env st).trans (addLog_frame _ _)).trans
        (iteLog_frame _ _ _)
    have f2 : StateFrame st nv.2 := f1.trans (navLoop_frame env cfg i _ _ _)
    have f3 : StateFrame st (readRunning env nv.2).2 :=
      f2.trans (readRunning_frame env _)
    have f4 : StateFrame st
        (readRunning env (addLog (readRunning env nv.2).2
          "log_waiting_load")).2 :=
      f3.trans ((addLog_frame _ _).trans (readRunning_frame env _))
    have f5 : StateFrame st
        (readRunning env (readRunning env (addLog (readRunning env nv.2).2
          "log_waiting_load")).2).2 :=
      f4.trans (readRunning_frame env _)
    set sc := safetyCheck cfg (categoryUrl category) (env.content i)
      (readRunning env (readRunning env (addLog (readRunning env nv.2).2
        "log_waiting_load")).2).2 with hsc
    have f6 : StateFrame st sc.2 := f5.trans (safetyCheck_frame _ _ _ _)
    have f7 : StateFrame st
        (scrollLoop env cfg i env.scrollFuel 0 0 0 prods
          (readRunning env sc.2).2).2 :=
      (f6.trans (readRunning_frame env _)).trans
        (scrollLoop_frame env cfg i _ _ _ _ _ _)
    split
    · exact ((readRunning_frame env st).trans (addLog_frame _ _)).2.1 h
    · split
      · exact (readRunning_frame env st).2.1 h
      · split
        · exact f2.2.1 h
        · split
          · exact f3.2.1 h
          · split
            · exact f4.2.1 h
            · split
              · exact f5.2.1 h
              · split
                · exact f6.2.1 h
                · exact ih _ _ (f7.2.1 h)

/-! ## Projection lemmas for the state constructors -/

@[simp] theorem addLog_browserStopped (st : RunState) (m : String) :
    (addLog st m).browserStopped = st.browserStopped := rfl

@[simp] theorem addLog_is_running (st : RunState) (m : String) :
    (addLog st m).is_running = st.is_running := rfl

@[simp] theorem addLog_progress (st : RunState) (m : String) :
    (addLog st m).progress = st.progress := rfl

@[simp] theorem addLog_checks (st : RunState) (m : String) :
    (addLog st m).checks = st.checks := rfl

@[simp] theorem addLog_savedPages (st : RunState) (m : String) :
    (addLog st m).savedPages = st.savedPages := rfl

@[simp] theorem iteLog_browserStopped (b : Bool) (st : RunState) (m : String) :
    (iteLog b st m).browserStopped = st.browserStopped := by
  simp only [iteLog]; split <;> rfl

@[simp] theorem iteLog_logs_length_le (b : Bool) (st : RunState) (m : String)
    (h : st.logs.length ≤ 50) : (iteLog b st m).logs.length ≤ 50 := by
  simp only [iteLog]; split
  · exact pushLog_length_le _ _ h
  · exact h

@[simp] theorem readRunning_snd_browserStopped (env : RunEnv) (st : RunState) :
    (readRunning env st).2.browserStopped = st.browserStopped := rfl

@[simp] theorem finishRun_fst (prods : List SProduct) (st : RunState) :
    (finishRun prods st).1 = Except.ok prods := rfl

@[simp] theorem finishRun_snd_browserStopped (prods : List SProduct)
    (st : RunState) : (finishRun prods st).2.browserStopped = true := rfl

/-- The loop body never touches `browserStopped`; only `finishRun` does. -/
theorem scrollLoop_browserStopped (env : RunEnv) (cfg : SConfig) (i : Nat)
    (fuel iter : Nat) (prevHeight : Int) (noChange : Nat)
    (prods : List SProduct) (st : RunState) :
    (scrollLoop env cfg i fuel iter prevHeight noChange prods st).2.browserStopped
      = st.browserStopped :=
  (scrollLoop_frame env cfg i fuel iter prevHeight noChange prods st).1

@[simp] theorem finalizeStatus_browserStopped
    (res : Except String (List SProduct)) (st : RunState) :
    (finalizeStatus res st).browserStopped = st.browserStopped := by
  cases res <;> rfl

@[simp] theorem finalizeStatus_is_running
    (res : Except String (List SProduct)) (st : RunState) :
    (finalizeStatus res st).is_running = false := by
  cases res <;> rfl

@[simp] theorem finalizeStatus_progress
    (res : Except String (List SProduct)) (st : RunState) :
    (finalizeStatus res st).progress = 100 := by
  cases res <;> rfl

theorem finalizeStatus_logs_le (res : Except String (List SProduct))
    (st : RunState) (h : st.logs.length ≤ 50) :
    (finalizeStatus res st).logs.length ≤ 50 := by
  cases res <;> exact pushLog_length_le _ _ h

theorem startPrelude_browserStopped (cfg : SConfig) :
    (startPrelude cfg).browserStopped = false := by
  simp [startPrelude, initState]

theorem startPrelude_logs_le (cfg : SConfig) :
    (startPrelude cfg).logs.length ≤ 50 := by
  simp only [startPrelude]
  refine iteLog_logs_length_le _ _ _ ?_
  simp [addLog, pushLog, initState]

theorem startRun_logs_le (env : RunEnv) (cfg : SConfig) :
    (startRun env cfg).2.logs.length ≤ 50 := by
  simp only [startRun]
  refine finalizeStatus_logs_le _ _ ?_
  simp only [scrapeProducts]
  exact catLoop_logs_le env cfg _ [] _ (by simpa using startPrelude_logs_le cfg)

/-! ## The run result and the browser-release flag (mod.rs:227-251, 296-298,
393-396) -/

theorem catLoop_isOk_eq_browserStopped (env : RunEnv) (cfg : SConfig) :
    ∀ (cats : List (Nat × String)) (prods : List SProduct) (st : RunState),
      st.browserStopped = false →
      (catLoop env cfg cats prods st).1.isOk
        = (catLoop env cfg cats prods st).2.browserStopped := by
  intro cats
  induction cats with
  | nil => intro prods st _; rfl
  | cons c rest ih =>
    obtain ⟨i, category⟩ := c
    intro prods st hb
    simp only [catLoop]
    set st2 := iteLog (env.memHigh i)
      (addLog (readRunning env st).2 ("log_navigating:" ++ category))
      "log_memory_full" with hst2
    set nv := navLoop env cfg i (cfg.max_retries + 1) 0 st2 with hnv
    have f2 : nv.2.browserStopped = false := by
      rw [((((readRunning_frame env st).trans (addLog_frame _ _)).trans
        (iteLog_frame _ _ _)).trans (navLoop_frame env cfg i _ _ _)).1, hb]
    set sc := safetyCheck cfg (categoryUrl category) (env.content i)
      (readRunning env (readRunning env (addLog (readRunning env nv.2).2
        "log_waiting_load")).2).2 with hsc
    have f6 : sc.2.browserStopped = false := by
      rw [(safetyCheck_frame _ _ _ _).1]
      simp [f2]
    split
    · rfl
    · split
      · rfl
      · split
        · simp [Except.isOk, Except.toBool, f2]
        · split
          · rfl
          · split
            · rfl
            · split
              · rfl
              · split
                · simp [Except.isOk, Except.toBool, f6]
                · refine ih _ _ ?_
                  rw [scrollLoop_browserStopped]
                  simp [f6]

/-- C2 (amended): the orchestrator stops the browser on exactly the exit
paths that return a product list — success, target reached, end of
categories, and caller cancellation.  On a run that ends in an error
(retries-exhausted navigation failure or a safety-switch detection
abort), `scrape_products` returns without calling
`BrowserManager::stop`. -/
theorem browser_release_iff_run_ok (env : RunEnv) (cfg : SConfig) :
    (startRun env cfg).1.isOk = true ↔
      (startRun env cfg).2.browserStopped = true := by
  have key : (scrapeProducts env cfg (startPrelude cfg)).1.isOk
      = (scrapeProducts env cfg (startPrelude cfg)).2.browserStopped := by
    simp only [scrapeProducts]
    refine catLoop_isOk_eq_browserStopped env cfg _ [] _ ?_
    simpa using startPrelude_browserStopped cfg
  simp only [startRun, finalizeStatus_browserStopped]
  rw [key]

/-- C2 counterexample: on a run whose single category never navigates
successfully (`max_retries = 0`), the run returns the navigation error
and the browser has not been stopped by the orchestrator. -/
theorem browser_not_released_on_nav_failure :
    (startRun c2Env c2Cfg).1 = Except.error "Failed to navigate" ∧
      (startRun c2Env c2Cfg).2.browserStopped = false := by
  constructor <;> rfl

/-- C9: the rolling log never exceeds 50 entries and evicts the oldest
entry first — any sequence of `add_log` pushes starting within the cap
leaves exactly the most recent entries, in order (60 pushes from an
empty log leave the last 50); every run's final status obeys the cap. -/
theorem rolling_log_cap :
    (∀ init msgs : List String, init.length ≤ 50 →
      msgs.foldl pushLog init = (init ++ msgs).rtake 50) ∧
    (∀ msgs : List String, msgs.length = 60 →
      msgs.foldl pushLog [] = msgs.drop 10) ∧
    ∀ (env : RunEnv) (cfg : SConfig), (startRun env cfg).2.logs.length ≤ 50 := by
  refine ⟨fun init msgs h => foldl_pushLog_eq_rtake msgs init h, ?_,
    startRun_logs_le⟩
  intro msgs h
  rw [foldl_pushLog_eq_rtake msgs [] (by simp), List.nil_append, List.rtake,
    h]

/-- Witness for C9: 60 concrete pushes leave the most recent 50. -/
theorem rolling_log_cap_witness :
    (List.replicate 60 "m").foldl pushLog [] = List.replicate 50 "m" := by
  rw [rolling_log_cap.2.1 (List.replicate 60 "m") (by simp)]
  simp

/-! ## Cancellation semantics (mod.rs:101-126, 310-314) -/

/-- C5: once the caller's stop is observable, (i) the scroll loop exits at
the very next top-of-iteration `is_running` check, leaving the collected
products untouched; (ii) a stop observed at a read stays observed at every
later read (the flag is never re-set during a run); (iii) the category
loop then immediately performs the browser cleanup and returns the
products collected so far as a *successful* result; and (iv) every run
ends with the status frozen to `is_running = false`, `progress = 100`. -/
theorem cancellation_mid_scroll :
    (∀ (env : RunEnv) (cfg : SConfig) (i fuel iter : Nat) (ph : Int)
      (nc : Nat) (prods : List SProduct) (st : RunState),
      (readRunning env st).1 = false → prods.length < cfg.max_products →
      scrollLoop env cfg i (fuel + 1) iter ph nc prods st
        = (prods, (readRunning env st).2)) ∧
    (∀ (env : RunEnv) (st st' : RunState),
      (readRunning env st).1 = false → st.checks ≤ st'.checks →
      (readRunning env st').1 = false) ∧
    (∀ (env : RunEnv) (cfg : SConfig) (cats : List (Nat × String))
      (prods : List SProduct) (st : RunState),
      (readRunning env st).1 = false →
      (catLoop env cfg cats prods st).1 = Except.ok prods ∧
        (catLoop env cfg cats prods st).2.browserStopped = true) ∧
    (∀ (env : RunEnv) (cfg : SConfig),
      (startRun env cfg).2.is_running = false ∧
        (startRun env cfg).2.progress = 100) := by
  refine ⟨?_, ?_, ?_, ?_⟩
  · intro env cfg i fuel iter ph nc prods st hstop hlt
    simp only [scrollLoop]
    rw [if_neg (by omega)]
    simp [hstop]
  · intro env st st' hstop hle
    simp only [readRunning] at hstop ⊢
    revert hstop
    cases env.stopAt with
    | none => intro hstop; simp at hstop
    | some n =>
      intro hstop
      have h2 : n ≤ st.checks := by simpa using hstop
      show decide (st'.checks < n) = false
      exact decide_eq_false (by omega)
  · intro env cfg cats prods st hstop
    cases cats with
    | nil => exact ⟨rfl, rfl⟩
    | cons c rest =>
      obtain ⟨i, category⟩ := c
      simp only [catLoop]
      simp [hstop]
  · intro env cfg
    constructor <;> simp [startRun]

/-- Witness for C5: with the stop scheduled before the 6th `is_running`
read and a state that has already performed 6 reads, the category loop
returns the one collected product as a success. -/
theorem cancellation_mid_scroll_witness :
    (catLoop c5Env c5Cfg [(0, "trending")] [⟨"0", "p", 10⟩]
        { initState with checks := 6 }).1 = Except.ok [⟨"0", "p", 10⟩] :=
  (cancellation_mid_scroll.2.2.1 c5Env c5Cfg [(0, "trending")] _ _
    (by decide)).1

/-! ## Safety switch (mod.rs:277-299) -/

theorem readRunning_fst_of_none (env : RunEnv) (st : RunState)
    (h : env.stopAt = none) : (readRunning env st).1 = true := by
  simp [readRunning, h]

theorem navLoop_first_attempt_ok (env : RunEnv) (cfg : SConfig) (i : Nat)
    (fuel : Nat) (st : RunState) (hstop : env.stopAt = none)
    (hnav : env.navOk i 0 = true) :
    navLoop env cfg i (fuel + 1) 0 st = (.ok, (readRunning env st).2) := by
  simp only [navLoop]
  simp [readRunning_fst_of_none env st hstop, hnav]

/-- C3: when a fetched page's content carries a block/verification/captcha
marker, the safety-check step logs the critical warning, persists the
`(url, html)` pair exactly when an error-page store is configured, and
requests a run abort exactly when the safety switch is enabled; a reached
single-category run with such content therefore ends in the detection
error when the switch is on, and still completes successfully (the
warning only being logged) when the switch is off. -/
theorem safety_switch_behaviour :
    (∀ (cfg : SConfig) (url content : String) (st : RunState),
      detectionMarker content = true →
      (safetyCheck cfg url content st).1 = cfg.safety_switch_enabled ∧
      (safetyCheck cfg url content st).2.logs
        = pushLog st.logs "log_detection" ∧
      (∀ p, cfg.db_path = some p →
        (safetyCheck cfg url content st).2.savedPages
          = st.savedPages ++ [(url, content)]) ∧
      (cfg.db_path = none →
        (safetyCheck cfg url content st).2.savedPages = st.savedPages)) ∧
    (∀ (cfg : SConfig) (url content : String) (st : RunState),
      detectionMarker content = false →
      safetyCheck cfg url content st = (false, st)) ∧
    (∀ (env : RunEnv) (cfg : SConfig) (category : String),
      cfg.categories = [category] → 0 < cfg.max_products →
      env.stopAt = none → env.navOk 0 0 = true →
      detectionMarker (env.content 0) = true →
      (cfg.safety_switch_enabled = true →
        (startRun env cfg).1
          = .error "Safety Switch triggered: Bot detection") ∧
      (cfg.safety_switch_enabled = false →
        (startRun env cfg).1.isOk = true)) := by
  refine ⟨?_, ?_, ?_⟩
  · intro cfg url content st hmark
    refine ⟨?_, ?_, ?_, ?_⟩
    · simp only [safetyCheck, hmark]
      cases cfg.db_path <;> simp
    · simp only [safetyCheck, hmark]
      cases cfg.db_path <;> simp [addLog]
    · intro p hp
      simp only [safetyCheck, hmark, hp]
      simp [addLog]
    · intro hp
      simp only [safetyCheck, hmark, hp]
      simp [addLog]
  · intro cfg url content st hmark
    simp [safetyCheck, hmark]
  · intro env cfg category hcats hmax hstop hnav hmark
    have hne : cfg.categories.isEmpty = false := by simp [hcats]
    have hrrt : ∀ st' : RunState, (readRunning env st').1 = true :=
      fun st' => readRunning_fst_of_none env st' hstop
    have hlt : ¬ (([] : List SProduct).length ≥ cfg.max_products) := by
      simp only [List.length_nil]
      omega
    have hsc : ∀ st' : RunState,
        (safetyCheck cfg (categoryUrl category) (env.content 0) st').1
          = cfg.safety_switch_enabled := by
      intro st'
      simp only [safetyCheck, hmark]
      cases cfg.db_path <;> simp
    have henum : (([category] : List String)).enum = [(0, category)] := rfl
    constructor
    · intro hon
      simp only [startRun, scrapeProducts, hcats, hne, Bool.false_eq_true,
        if_false, henum]
      simp only [catLoop, hrrt, Bool.not_true, Bool.false_eq_true, if_false,
        if_neg hlt,
        navLoop_first_attempt_ok env cfg 0 cfg.max_retries _ hstop hnav]
      simp [hsc, hon]
    · intro hoff
      simp only [startRun, scrapeProducts, hcats, hne, Bool.false_eq_true,
        if_false, henum]
      simp only [catLoop, hrrt, Bool.not_true, Bool.false_eq_true, if_false,
        if_neg hlt,
        navLoop_first_attempt_ok env cfg 0 cfg.max_retries _ hstop hnav]
      simp [hsc, hoff, Except.isOk, Except.toBool, finishRun]

/-- Witness for C3: the captcha fixture aborts the run when the switch is
on, completes it when the switch is off, and persists the diagnostic
pair when a store is configured. -/
theorem safety_switch_behaviour_witness :
    (startRun c3Env c3CfgOn).1
        = .error "Safety Switch triggered: Bot detection" ∧
      (startRun c3Env c3CfgOff).1.isOk = true ∧
      (safetyCheck c3CfgOff "u" "<html>captcha</html>" initState).2.savedPages
        = initState.savedPages ++ [("u", "<html>captcha</html>")] :=
  ⟨(safety_switch_behaviour.2.2 c3Env c3CfgOn "trending" rfl (by decide)
      rfl rfl (by decide)).1 rfl,
   (safety_switch_behaviour.2.2 c3Env c3CfgOff "trending" rfl (by decide)
      rfl rfl (by decide)).2 rfl,
   (safety_switch_behaviour.1 c3CfgOff "u" "<html>captcha</html>" initState
      (by decide)).2.2.1 "didin.db" rfl⟩

/-! ## Deduplication by source id (mod.rs:321-337) -/

theorem mergeOne_any_iff (prods : List SProduct) (p : SProduct) :
    (prods.any fun q => q.tiktok_id == p.tiktok_id) = true ↔
      p.tiktok_id ∈ prods.map SProduct.tiktok_id := by
  simp [List.any_eq_true, List.mem_map, beq_iff_eq]

theorem mergeOne_fst (prods : List SProduct) (st : RunState) (n : Nat)
    (p : SProduct) :
    (mergeOne (prods, st, n) p).1 =
      if p.tiktok_id ∈ prods.map SProduct.tiktok_id then prods
      else prods ++ [p] := by
  simp only [mergeOne]
  by_cases h : p.tiktok_id ∈ prods.map SProduct.tiktok_id
  · rw [if_pos h]
    have ha := (mergeOne_any_iff prods p).mpr h
    simp [ha]
  · rw [if_neg h]
    have ha : (prods.any fun q => q.tiktok_id == p.tiktok_id) = false := by
      cases hb : prods.any fun q => q.tiktok_id == p.tiktok_id
      · rfl
      · exact absurd ((mergeOne_any_iff prods p).mp hb) h
    simp [ha]

theorem mergeBatch_fst_mem (batch : List SProduct) :
    ∀ (acc : List SProduct × RunState × Nat) (x : String),
      x ∈ (batch.foldl mergeOne acc).1.map SProduct.tiktok_id ↔
        x ∈ acc.1.map SProduct.tiktok_id ∨
          x ∈ batch.map SProduct.tiktok_id := by
  induction batch with
  | nil => intro acc x; simp
  | cons p ps ih =>
    intro acc x
    obtain ⟨prods, st, n⟩ := acc
    rw [List.foldl_cons, ih, mergeOne_fst]
    by_cases hmem : p.tiktok_id ∈ prods.map SProduct.tiktok_id
    · rw [if_pos hmem]
      simp only [List.map_cons, List.mem_cons]
      constructor
      · rintro (h | h)
        · exact Or.inl h
        · exact Or.inr (Or.inr h)
      · rintro (h | h | h)
        · exact Or.inl h
        · exact Or.inl (by rw [h]; exact hmem)
        · exact Or.inr h
    · rw [if_neg hmem]
      simp only [List.map_append, List.map_cons, List.map_nil,
        List.mem_append, List.mem_cons, List.mem_singleton]
      tauto

theorem mergeBatch_fst_nodup (batch : List SProduct) :
    ∀ (acc : List SProduct × RunState × Nat),
      (acc.1.map SProduct.tiktok_id).Nodup →
      ((batch.foldl mergeOne acc).1.map SProduct.tiktok_id).Nodup := by
  induction batch with
  | nil => intro acc h; exact h
  | cons p ps ih =>
    intro acc h
    obtain ⟨prods, st, n⟩ := acc
    rw [List.foldl_cons]
    refine ih _ ?_
    show ((mergeOne (prods, st, n) p).1.map SProduct.tiktok_id).Nodup
    rw [mergeOne_fst]
    by_cases hmem : p.tiktok_id ∈ prods.map SProduct.tiktok_id
    · rw [if_pos hmem]; exact h
    · rw [if_neg hmem]
      simp only [List.map_append, List.map_cons, List.map_nil]
      rw [List.nodup_append]
      refine ⟨h, List.nodup_singleton _, ?_⟩
      intro a ha hb
      simp only [List.mem_singleton] at hb
      exact hmem (hb ▸ ha)

theorem scrollLoop_fst_nodup (env : RunEnv) (cfg : SConfig) (i : Nat) :
    ∀ (fuel iter : Nat) (ph : Int) (nc : Nat) (prods : List SProduct)
      (st : RunState),
      (prods.map SProduct.tiktok_id).Nodup →
      ((scrollLoop env cfg i fuel iter ph nc prods st).1.map
        SProduct.tiktok_id).Nodup := by
  intro fuel
  induction fuel with
  | zero => intro _ _ _ prods st h; exact h
  | succ fuel ih =>
    intro iter ph nc prods st h
    simp only [scrollLoop]
    have hmb : ((mergeBatch prods (addLog (readRunning env st).2
        "log_parsing") (env.parsed i iter)).1.map SProduct.tiktok_id).Nodup :=
      mergeBatch_fst_nodup _ _ h
    split
    · exact h
    · split
      · exact h
      · split
        · exact hmb
        · split
          · exact hmb
          · split
            · split
              · exact hmb
              · exact ih _ _ _ _ _ hmb
            · exact ih _ _ _ _ _ hmb

theorem catLoop_ok_nodup (env : RunEnv) (cfg : SConfig) :
    ∀ (cats : List (Nat × String)) (prods : List SProduct) (st : RunState),
      (prods.map SProduct.tiktok_id).Nodup →
      ∀ ps, (catLoop env cfg cats prods st).1 = .ok ps →
        (ps.map SProduct.tiktok_id).Nodup := by
  intro cats
  induction cats with
  | nil =>
    intro prods st h ps hok
    simp only [catLoop, finishRun_fst, Except.ok.injEq] at hok
    exact hok ▸ h
  | cons c rest ih =>
    obtain ⟨i, category⟩ := c
    intro prods st h ps hok
    simp only [catLoop] at hok
    split at hok
    · simp only [finishRun_fst, Except.ok.injEq] at hok
      exact hok ▸ h
    · split at hok
      · simp only [finishRun_fst, Except.ok.injEq] at hok
        exact hok ▸ h
      · split at hok
        · simp at hok
        · split at hok
          · simp only [finishRun_fst, Except.ok.injEq] at hok
            exact hok ▸ h
          · split at hok
            · simp only [finishRun_fst, Except.ok.injEq] at hok
              exact hok ▸ h
            · split at hok
              · simp only [finishRun_fst, Except.ok.injEq] at hok
                exact hok ▸ h
              · split at hok
                · simp at hok
                · exact ih _ _ (scrollLoop_fst_nodup env cfg i _ _ _ _ _ _ h)
                    ps hok

/-- C8: the orchestrator's accumulated product list has pairwise distinct
source ids throughout a run — a parsed product whose `tiktok_id` is
already collected is not appended, merging a batch adds exactly the
batch's ids to the collected set, and the final product list of every
successful run has no duplicate source id. -/
theorem dedup_by_source_id :
    (∀ (prods : List SProduct) (st : RunState) (n : Nat) (p : SProduct),
      p.tiktok_id ∈ prods.map SProduct.tiktok_id →
      (mergeOne (prods, st, n) p).1 = prods) ∧
    (∀ (prods : List SProduct) (st : RunState) (batch : List SProduct)
      (x : String),
      x ∈ (mergeBatch prods st batch).1.map SProduct.tiktok_id ↔
        x ∈ prods.map SProduct.tiktok_id ∨
          x ∈ batch.map SProduct.tiktok_id) ∧
    (∀ (env : RunEnv) (cfg : SConfig) (ps : List SProduct),
      (startRun env cfg).1 = .ok ps → (ps.map SProduct.tiktok_id).Nodup) := by
  refine ⟨?_, ?_, ?_⟩
  · intro prods st n p hmem
    rw [mergeOne_fst, if_pos hmem]
  · intro prods st batch x
    exact mergeBatch_fst_mem batch (prods, st, 0) x
  · intro env cfg ps hok
    simp only [startRun, scrapeProducts] at hok
    exact catLoop_ok_nodup env cfg _ [] _ (by simp) ps hok

/-- Witness for C8: a run whose parser output repeats source id `"111"`
in every batch ends with each id collected exactly once. -/
theorem dedup_by_source_id_witness :
    (([⟨"111", "a", 1⟩, ⟨"222", "c", 3⟩] : List SProduct).map
      SProduct.tiktok_id).Nodup :=
  dedup_by_source_id.2.2 c8Env c8Cfg _ rfl

/-! ## Proxy health and blocking (proxy.rs:86-147) -/

theorem lookup_updateStats_self (f : ProxyStats → ProxyStats) (k : String) :
    ∀ l : List (String × ProxyStats),
      (updateStats f k l).lookup k = (l.lookup k).map f := by
  intro l
  induction l with
  | nil => rfl
  | cons e rest ih =>
    obtain ⟨k', v⟩ := e
    simp only [updateStats]
    by_cases h : k' = k
    · subst h
      simp [List.lookup]
    · have hb : (k' == k) = false := by simp [h]
      have hb2 : (k == k') = false := by simp [Ne.symm h]
      simp [List.lookup, hb, hb2, ih]

theorem get_next_mem (pool : ProxyPool) (now : Int) (p : ProxyConfig)
    (h : (pool.get_next now).1 = some p) : p ∈ pool.get_available now := by
  simp only [ProxyPool.get_next] at h
  split at h
  · simp at h
  · rename_i a rest heq
    simp only [Option.some.injEq] at h
    rw [heq]
    exact h ▸ List.get_mem _ _ _

/-- C4: (i) a `report_failure` that tips an endpoint with at least 5
recorded requests over the 50% failure rate marks it blocked until
`now + cooldown` (default 30 minutes); (ii) `next()` only returns members
of the currently available subset; (iii) an endpoint whose stats are
blocked with an unexpired deadline is never returned by `next()`;
(iv) once `now` passes `blocked_until` the endpoint is in the available
subset again, and (v) `next()` returns an endpoint whenever the available
subset is non-empty. -/
theorem proxy_blocking_lifecycle :
    (∀ (pool : ProxyPool) (proxy : ProxyConfig) (m : Option Int) (now : Int)
      (s : ProxyStats),
      pool.stats.lookup proxy.server = some s →
      2 * (s.failure_count + 1) > max s.total_requests 1 →
      5 ≤ s.total_requests →
      (pool.report_failure proxy m now).stats.lookup proxy.server
        = some { s with failure_count := s.failure_count + 1,
                        is_blocked := true,
                        blocked_until := some (now + m.getD 30) }) ∧
    (∀ (pool : ProxyPool) (now : Int) (p : ProxyConfig),
      (pool.get_next now).1 = some p → p ∈ pool.get_available now) ∧
    (∀ (pool : ProxyPool) (now : Int) (q : ProxyConfig) (s : ProxyStats)
      (t : Int),
      pool.stats.lookup q.server = some s → s.is_blocked = true →
      s.blocked_until = some t → ¬ now > t →
      ∀ p, (pool.get_next now).1 = some p → p.server ≠ q.server) ∧
    (∀ (pool : ProxyPool) (now : Int) (q : ProxyConfig) (s : ProxyStats)
      (t : Int),
      q ∈ pool.proxies → pool.stats.lookup q.server = some s →
      s.blocked_until = some t → now > t →
      q ∈ pool.get_available now) ∧
    (∀ (pool : ProxyPool) (now : Int),
      pool.get_available now ≠ [] → (pool.get_next now).1.isSome = true) := by
  refine ⟨?_, get_next_mem, ?_, ?_, ?_⟩
  · intro pool proxy m now s hs hrate htot
    show (updateStats (reportFailureStats m now) proxy.server
      pool.stats).lookup proxy.server = _
    rw [lookup_updateStats_self, hs]
    show some (reportFailureStats m now s) = _
    congr 1
    simp only [reportFailureStats]
    rw [if_pos ⟨hrate, htot⟩]
  · intro pool now q s t hs hblocked huntil hnot p hp hserver
    have hmem := get_next_mem pool now p hp
    rw [ProxyPool.get_available, List.mem_filter] at hmem
    have hav := hmem.2
    rw [proxyAvailable, hserver, hs] at hav
    have hav2 : (!s.is_blocked || (match s.blocked_until with
        | some t => decide (now > t) | none => false)) = true := hav
    rw [hblocked, huntil] at hav2
    simp at hav2
    exact hnot hav2
  · intro pool now q s t hq hs huntil hnow
    rw [ProxyPool.get_available, List.mem_filter]
    refine ⟨hq, ?_⟩
    rw [proxyAvailable, hs]
    show (!s.is_blocked || (match s.blocked_until with
        | some t => decide (now > t) | none => false)) = true
    rw [huntil]
    simp [hnow]
  · intro pool now hne
    simp only [ProxyPool.get_next]
    split
    · rename_i heq
      exact absurd heq hne
    · simp

/-- Witness for C4: on the concrete pool, one more failure blocks the
first endpoint until minute 30, and at minute 31 it is available
again. -/
theorem proxy_blocking_lifecycle_witness :
    ((c4Pool.report_failure c4Proxy none 0).stats.lookup c4Proxy.server
      = some { success_count := 1, failure_count := 3, total_requests := 5,
               last_used := some 0, is_blocked := true,
               blocked_until := some 30 }) ∧
      c4Proxy ∈ (c4Pool.report_failure c4Proxy none 0).get_available 31 :=
  ⟨proxy_blocking_lifecycle.1 c4Pool c4Proxy none 0 c4Stats rfl (by decide)
      (by decide),
   proxy_blocking_lifecycle.2.2.2.1 (c4Pool.report_failure c4Proxy none 0) 31
      c4Proxy { success_count := 1, failure_count := 3, total_requests := 5,
                last_used := some 0, is_blocked := true,
                blocked_until := some 30 } 30
      (by decide) (by decide) rfl (by decide)⟩

/-! ## Proxy URL parsing never drops an entry (proxy.rs:28-80) -/

/-- C6 (evaluation of the code): `parse_proxy_url` returns `Some` on
*every* input, so `ProxyPool::new`'s `filter_map` never drops anything:
the malformed entry `"not a url"` (no `host:port` shape) becomes a pool
entry with server `"http://not a url"` instead of being dropped. -/
theorem parse_proxy_url_never_drops :
    (∀ url : String, (parse_proxy_url url).isSome = true) ∧
      (ProxyPool.new ["not a url"]).proxies
        = [{ server := "http://not a url", username := none,
             password := none }] := by
  constructor
  · intro url; rfl
  · rfl

/-! ## Price parsing is non-negative (parser.rs:352-400) -/

theorem parseDigitsDots_nonneg (l : List Char) (q : ℚ)
    (h : parseDigitsDots l = some q) : 0 ≤ q := by
  simp only [parseDigitsDots] at h
  split at h
  · simp only [Option.some.injEq] at h
    subst h
    have h1 : (0 : ℚ) ≤ (digitsVal (l.takeWhile fun c => c ≠ '.') : ℚ) :=
      Nat.cast_nonneg _
    have h2 : (0 : ℚ) ≤
        (digitsVal ((l.dropWhile fun c => c ≠ '.').drop 1) : ℚ) /
          (10 : ℚ) ^ ((l.dropWhile fun c => c ≠ '.').drop 1).length :=
      div_nonneg (Nat.cast_nonneg _) (by positivity)
    exact add_nonneg h1 h2
  · simp at h

theorem decValOr0_nonneg (l : List Char) : 0 ≤ decValOr0 l := by
  rw [decValOr0]
  cases h : parseDigitsDots l with
  | none => simp
  | some q => simpa using parseDigitsDots_nonneg l q h

/-- C10: for every input string the price parser returns a non-negative
value — minus signs (and everything except digits, comma, dot) are
discarded by the cleaning pass before numeric interpretation. -/
theorem price_parser_nonneg (s : String) : 0 ≤ parse_price_text s := by
  rw [parse_price_text]
  rw [parse_price_textL]
  split
  · exact le_refl 0
  · exact decValOr0_nonneg _

/-! ## Locale-aware price parsing (parser.rs:352-400) -/

theorem lastIdx_foldl_no (c : Char) {b : List Char} (hc : c ∉ b) :
    ∀ (k : Nat) (acc : Option Nat),
      (List.enumFrom k b).foldl
        (fun acc p => if p.2 = c then some p.1 else acc) acc = acc := by
  induction b with
  | nil => intro k acc; rfl
  | cons x rest ih =>
    intro k acc
    rw [List.enumFrom_cons, List.foldl_cons]
    have hx : ¬ (x = c) := by
      intro he
      exact hc (by rw [← he]; exact List.mem_cons_self x rest)
    rw [if_neg hx]
    exact ih (fun hm => hc (List.mem_cons_of_mem _ hm)) _ _

theorem lastIdx_foldl_isSome (c : Char) (b : List Char) :
    ∀ (k : Nat) (acc : Option Nat), acc.isSome = true →
      ((List.enumFrom k b).foldl
        (fun acc p => if p.2 = c then some p.1 else acc) acc).isSome
        = true := by
  induction b with
  | nil => intro k acc h; exact h
  | cons x rest ih =>
    intro k acc h
    rw [List.enumFrom_cons, List.foldl_cons]
    by_cases hx : x = c
    · rw [if_pos hx]
      exact ih _ _ rfl
    · rw [if_neg hx]
      exact ih _ _ h

theorem lastIdx_foldl_mem_isSome (c : Char) {b : List Char} (hc : c ∈ b) :
    ∀ (k : Nat) (acc : Option Nat),
      ((List.enumFrom k b).foldl
        (fun acc p => if p.2 = c then some p.1 else acc) acc).isSome
        = true := by
  induction b with
  | nil => exact absurd hc (List.not_mem_nil c)
  | cons x rest ih =>
    intro k acc
    rw [List.enumFrom_cons, List.foldl_cons]
    by_cases hx : x = c
    · rw [if_pos hx]
      exact lastIdx_foldl_isSome c rest _ _ rfl
    · rw [if_neg hx]
      have : c ∈ rest := by
        rcases List.mem_cons.mp hc with he | hm
        · exact absurd he.symm hx
        · exact hm
      exact ih this _ _

theorem lastIdx_eq_none_iff (c : Char) (l : List Char) :
    lastIdx c l = none ↔ c ∉ l := by
  constructor
  · intro h hm
    have := lastIdx_foldl_mem_isSome c hm 0 none
    rw [show List.enumFrom 0 l = l.enum from rfl] at this
    rw [show (l.enum.foldl (fun acc p => if p.2 = c then some p.1 else acc)
      none) = lastIdx c l from rfl, h] at this
    simp at this
  · intro hm
    exact lastIdx_foldl_no c hm 0 none

theorem lastIdx_append_cons (c : Char) (a b : List Char) (hb : c ∉ b) :
    lastIdx c (a ++ c :: b) = some a.length := by
  show (List.enumFrom 0 (a ++ c :: b)).foldl _ none = some a.length
  rw [List.enumFrom_append, List.foldl_append, List.enumFrom_cons,
    List.foldl_cons, if_pos rfl]
  rw [lastIdx_foldl_no c hb]
  simp

theorem lastIdx_append_right_no (c : Char) (a y : List Char) (hy : c ∉ y) :
    lastIdx c (a ++ y) = lastIdx c a := by
  show (List.enumFrom 0 (a ++ y)).foldl _ none = _
  rw [List.enumFrom_append, List.foldl_append, lastIdx_foldl_no c hy]
  rfl

theorem lastIdx_foldl_lt (c : Char) (l : List Char) :
    ∀ (k : Nat) (acc : Option Nat) (n : Nat), k + l.length ≤ n →
      (∀ j, acc = some j → j < n) →
      ∀ j, (List.enumFrom k l).foldl
        (fun acc p => if p.2 = c then some p.1 else acc) acc = some j →
        j < n := by
  induction l with
  | nil => intro k acc n _ hacc j h; exact hacc j h
  | cons x rest ih =>
    intro k acc n hk hacc j h
    rw [List.enumFrom_cons, List.foldl_cons] at h
    by_cases hx : x = c
    · rw [if_pos hx] at h
      refine ih (k + 1) (some k) n (by simp at hk ⊢; omega) ?_ j h
      intro j' hj'
      simp only [Option.some.injEq] at hj'
      subst hj'
      simp at hk
      omega
    · rw [if_neg hx] at h
      exact ih (k + 1) acc n (by simp at hk ⊢; omega) hacc j h

theorem lastIdx_lt_length (c : Char) (l : List Char) (i : Nat)
    (h : lastIdx c l = some i) : i < l.length := by
  refine lastIdx_foldl_lt c l 0 none l.length (by omega) ?_ i h
  intro j hj
  simp at hj

theorem mem_cleaned_class (l : List Char) (c : Char) (h : c ∈ cleaned l) :
    c.isDigit = true ∨ c = ',' ∨ c = '.' := by
  simp only [cleaned, List.mem_filter] at h
  have h2 := h.2
  simp only [Bool.or_eq_true, beq_iff_eq] at h2
  tauto

theorem isDigit_ne_of (c x : Char) (hc : c.isDigit = true)
    (hx : x.isDigit = false) : c ≠ x := by
  intro he
  rw [he, hx] at hc
  cases hc

theorem filter_ne_eq_filter_isDigit (x : Char) (hx : x.isDigit = false)
    (a : List Char) (ha : ∀ c ∈ a, c.isDigit = true ∨ c = x) :
    a.filter (fun ch => ch ≠ x) = a.filter Char.isDigit := by
  refine List.filter_congr ?_
  intro c hc
  rcases ha c hc with hd | he
  · have h1 : c ≠ x := isDigit_ne_of c x hd hx
    simp [h1, hd]
  · subst he
    simp [hx]

theorem filter_digits_self (a : List Char) (h : ∀ c ∈ a, c.isDigit = true) :
    a.filter Char.isDigit = a :=
  List.filter_eq_self.mpr h

theorem commaToDot_no_comma (l : List Char) (h : ',' ∉ l) :
    commaToDot l = l := by
  induction l with
  | nil => rfl
  | cons c rest ih =>
    have hc : ¬ (c = ',') := by
      intro he
      exact h (by rw [← he]; exact List.mem_cons_self c rest)
    simp only [commaToDot, List.map_cons, if_neg hc]
    have := ih (fun hm => h (List.mem_cons_of_mem _ hm))
    simp only [commaToDot] at this
    rw [this]

theorem takeWhile_append_stop (p : Char → Bool) (a : List Char) (c : Char)
    (b : List Char) (ha : ∀ x ∈ a, p x = true) (hc : p c = false) :
    (a ++ c :: b).takeWhile p = a := by
  induction a with
  | nil => simp [List.takeWhile_cons, hc]
  | cons x rest ih =>
    rw [List.cons_append, List.takeWhile_cons, ha x (by simp)]
    simp only [if_true]
    rw [ih (fun y hy => ha y (by simp [hy]))]

theorem dropWhile_append_stop (p : Char → Bool) (a : List Char) (c : Char)
    (b : List Char) (ha : ∀ x ∈ a, p x = true) (hc : p c = false) :
    (a ++ c :: b).dropWhile p = c :: b := by
  induction a with
  | nil => simp [List.dropWhile_cons, hc]
  | cons x rest ih =>
    rw [List.cons_append, List.dropWhile_cons, ha x (by simp)]
    simp only [if_true]
    exact ih (fun y hy => ha y (by simp [hy]))

theorem digit_pred_ne_dot (c : Char) (h : c.isDigit = true) :
    (decide (c ≠ '.')) = true :=
  decide_eq_true (isDigit_ne_of c '.' h (by decide))

theorem takeWhile_eq_self_of_digits (l : List Char)
    (h : ∀ c ∈ l, c.isDigit = true) :
    l.takeWhile (fun c => c ≠ '.') = l := by
  induction l with
  | nil => rfl
  | cons c rest ih =>
    have hc := digit_pred_ne_dot c (h c (by simp))
    simp only [List.takeWhile_cons]
    simp only [hc, if_true]
    rw [ih (fun y hy => h y (by simp [hy]))]

theorem dropWhile_eq_nil_of_digits (l : List Char)
    (h : ∀ c ∈ l, c.isDigit = true) :
    l.dropWhile (fun c => c ≠ '.') = [] := by
  induction l with
  | nil => rfl
  | cons c rest ih =>
    have hc := digit_pred_ne_dot c (h c (by simp))
    simp only [List.dropWhile_cons]
    simp only [hc, if_true]
    exact ih (fun y hy => h y (by simp [hy]))

theorem decValOr0_digits (x : List Char)
    (hx : ∀ c ∈ x, c.isDigit = true) : decValOr0 x = (digitsVal x : ℚ) := by
  cases x with
  | nil => simp [decValOr0, parseDigitsDots, digitsVal]
  | cons c rest =>
    have hx' : ∀ y ∈ c :: rest, y.isDigit = true := hx
    rw [decValOr0, parseDigitsDots, if_pos]
    · rw [takeWhile_eq_self_of_digits, dropWhile_eq_nil_of_digits]
      · simp [digitsVal]
      · exact hx'
      · exact hx'
    · simp only [Bool.and_eq_true]
      refine ⟨⟨?_, ?_⟩, ?_⟩
      · exact List.all_eq_true.mpr fun y hy => by simp [hx' y hy]
      · have h0 : (c :: rest).count '.' = 0 :=
          List.count_eq_zero.mpr fun hm => by
            have := hx' '.' hm
            exact absurd this (by decide)
        simp [h0]
      · exact List.any_eq_true.mpr ⟨c, by simp, hx' c (by simp)⟩

theorem decValOr0_decimal (a b : List Char)
    (ha : ∀ c ∈ a, c.isDigit = true) (hb : ∀ c ∈ b, c.isDigit = true) :
    decValOr0 (a ++ '.' :: b)
      = (digitsVal a : ℚ) + (digitsVal b : ℚ) / 10 ^ b.length := by
  have htake : (a ++ '.' :: b).takeWhile (fun c => c ≠ '.') = a :=
    takeWhile_append_stop _ a '.' b
      (fun x hx => digit_pred_ne_dot x (ha x hx)) (by decide)
  have hdrop : (a ++ '.' :: b).dropWhile (fun c => c ≠ '.') = '.' :: b :=
    dropWhile_append_stop _ a '.' b
      (fun x hx => digit_pred_ne_dot x (ha x hx)) (by decide)
  by_cases hne : a = [] ∧ b = []
  · obtain ⟨h1, h2⟩ := hne
    subst h1; subst h2
    have : decValOr0 (([] : List Char) ++ '.' :: []) = 0 := by
      simp [decValOr0, parseDigitsDots]
    rw [this]
    simp [digitsVal]
  · rw [decValOr0, parseDigitsDots, if_pos]
    · rw [htake, hdrop]
      simp
    · simp only [Bool.and_eq_true]
      refine ⟨⟨?_, ?_⟩, ?_⟩
      · refine List.all_eq_true.mpr fun y hy => ?_
        rcases List.mem_append.mp hy with h1 | h1
        · simp [ha y h1]
        · rcases List.mem_cons.mp h1 with h2 | h2
          · simp [h2]
          · simp [hb y h2]
      · have hca : a.count '.' = 0 :=
          List.count_eq_zero.mpr fun hm => absurd (ha '.' hm) (by decide)
        have hcb : b.count '.' = 0 :=
          List.count_eq_zero.mpr fun hm => absurd (hb '.' hm) (by decide)
        simp [List.count_append, List.count_cons, hca, hcb]
      · refine List.any_eq_true.mpr ?_
        rcases hna : a with _ | ⟨x, xs⟩
        · rcases hnb : b with _ | ⟨y, ys⟩
          · exact absurd ⟨hna, hnb⟩ hne
          · exact ⟨y, by simp [hnb], hb y (by simp [hnb])⟩
        · exact ⟨x, by simp [hna], ha x (by simp [hna])⟩

theorem commaToDot_append (x y : List Char) :
    commaToDot (x ++ y) = commaToDot x ++ commaToDot y := by
  simp [commaToDot]

theorem commaToDot_cons_comma (b : List Char) :
    commaToDot (',' :: b) = '.' :: commaToDot b := by
  simp [commaToDot]

theorem priceL_empty (l : List Char) (h : cleaned l = []) :
    parse_price_textL l = 0 := by
  simp [parse_price_textL, h]

theorem priceL_no_sep (l : List Char) (hc : ',' ∉ cleaned l)
    (hd : '.' ∉ cleaned l) :
    parse_price_textL l = (digitsVal (cleaned l) : ℚ) := by
  have hdig : ∀ c ∈ cleaned l, c.isDigit = true := by
    intro c hm
    rcases mem_cleaned_class l c hm with h | h | h
    · exact h
    · exact absurd (h ▸ hm) hc
    · exact absurd (h ▸ hm) hd
  by_cases he : cleaned l = []
  · rw [priceL_empty l he, he]
    simp [digitsVal]
  · have hfalse : (cleaned l).isEmpty = false := by
      simpa [List.isEmpty_iff] using he
    have hcomma := (lastIdx_eq_none_iff ',' (cleaned l)).mpr hc
    have hdot := (lastIdx_eq_none_iff '.' (cleaned l)).mpr hd
    simp only [parse_price_textL, hfalse, Bool.false_eq_true, if_false,
      hcomma, hdot]
    exact decValOr0_digits _ hdig

theorem priceL_multi_dot (l : List Char) (hc : ',' ∉ cleaned l)
    (hcount : (cleaned l).count '.' > 1) :
    parse_price_textL l
      = (digitsVal ((cleaned l).filter Char.isDigit) : ℚ) := by
  have hdotmem : '.' ∈ cleaned l := by
    by_contra hno
    have := List.count_eq_zero.mpr hno
    omega
  obtain ⟨j, hj⟩ : ∃ j, lastIdx '.' (cleaned l) = some j := by
    cases h : lastIdx '.' (cleaned l) with
    | none => exact absurd ((lastIdx_eq_none_iff _ _).mp h) (by
        simpa using hdotmem)
    | some j => exact ⟨j, rfl⟩
  have hne : cleaned l ≠ [] := by
    intro h0
    rw [h0] at hdotmem
    simp at hdotmem
  have hfalse : (cleaned l).isEmpty = false := by
    simpa [List.isEmpty_iff] using hne
  have hcomma := (lastIdx_eq_none_iff ',' (cleaned l)).mpr hc
  simp only [parse_price_textL, hfalse, Bool.false_eq_true, if_false,
    hcomma, hj]
  rw [if_pos hcount]
  have hclass : ∀ c ∈ cleaned l, c.isDigit = true ∨ c = '.' := by
    intro c hm
    rcases mem_cleaned_class l c hm with h | h | h
    · exact Or.inl h
    · exact absurd (h ▸ hm) hc
    · exact Or.inr h
  rw [filter_ne_eq_filter_isDigit '.' (by decide) _ hclass]
  exact decValOr0_digits _ (fun c hm => (List.mem_filter.mp hm).2)

theorem priceL_one_dot (l a b : List Char) (hcl : cleaned l = a ++ '.' :: b)
    (hca : ',' ∉ a) (hcb : ',' ∉ b) (hda : '.' ∉ a) (hdb : '.' ∉ b) :
    parse_price_textL l =
      if b.length = 3 then (digitsVal (a ++ b) : ℚ)
      else (digitsVal a : ℚ) + (digitsVal b : ℚ) / 10 ^ b.length := by
  have hadig : ∀ c ∈ a, c.isDigit = true := by
    intro c hm
    have hmem : c ∈ cleaned l := by
      rw [hcl]
      exact List.mem_append_left _ hm
    rcases mem_cleaned_class l c hmem with h | h | h
    · exact h
    · exact absurd (h ▸ hm) hca
    · exact absurd (h ▸ hm) hda
  have hbdig : ∀ c ∈ b, c.isDigit = true := by
    intro c hm
    have hmem : c ∈ cleaned l := by
      rw [hcl]
      exact List.mem_append_right _ (List.mem_cons_of_mem _ hm)
    rcases mem_cleaned_class l c hmem with h | h | h
    · exact h
    · exact absurd (h ▸ hm) hcb
    · exact absurd (h ▸ hm) hdb
  have hfalse : (cleaned l).isEmpty = false := by
    rw [hcl]; cases a <;> rfl
  have hcomma : lastIdx ',' (cleaned l) = none := by
    refine (lastIdx_eq_none_iff _ _).mpr ?_
    rw [hcl]
    intro hm
    rcases List.mem_append.mp hm with h | h
    · exact hca h
    · rcases List.mem_cons.mp h with h2 | h2
      · exact absurd h2 (by decide)
      · exact hcb h2
  have hdot : lastIdx '.' (cleaned l) = some a.length := by
    rw [hcl]; exact lastIdx_append_cons '.' a b hdb
  have hcount : (cleaned l).count '.' = 1 := by
    rw [hcl]
    have h1 : a.count '.' = 0 := List.count_eq_zero.mpr hda
    have h2 : b.count '.' = 0 := List.count_eq_zero.mpr hdb
    simp [List.count_append, List.count_cons, h1, h2]
  have hlen : (cleaned l).length - a.length - 1 = b.length := by
    rw [hcl]
    simp only [List.length_append, List.length_cons]
    omega
  simp only [parse_price_textL, hfalse, Bool.false_eq_true, if_false,
    hcomma, hdot]
  rw [hcount, if_neg (by omega), hlen]
  by_cases h3 : b.length = 3
  · rw [if_pos h3, if_pos h3, hcl]
    have hfa : (a ++ '.' :: b).filter (fun ch => ch ≠ '.') = a ++ b := by
      rw [List.filter_append, List.filter_cons]
      have hpa : a.filter (fun ch => ch ≠ '.') = a :=
        List.filter_eq_self.mpr fun c hc => digit_pred_ne_dot c (hadig c hc)
      have hpb : b.filter (fun ch => ch ≠ '.') = b :=
        List.filter_eq_self.mpr fun c hc => digit_pred_ne_dot c (hbdig c hc)
      rw [if_neg (by decide), hpa, hpb]
    rw [hfa]
    refine decValOr0_digits _ ?_
    intro c hm
    rcases List.mem_append.mp hm with h | h
    · exact hadig c h
    · exact hbdig c h
  · rw [if_neg h3, if_neg h3, hcl]
    exact decValOr0_decimal a b hadig hbdig

theorem priceL_comma_last (l a b : List Char)
    (hcl : cleaned l = a ++ ',' :: b) (hca : ',' ∉ a) (hcb : ',' ∉ b)
    (hdb : '.' ∉ b) :
    parse_price_textL l = (digitsVal (a.filter Char.isDigit) : ℚ) +
      (digitsVal b : ℚ) / 10 ^ b.length := by
  have haclass : ∀ c ∈ a, c.isDigit = true ∨ c = '.' := by
    intro c hm
    have hmem : c ∈ cleaned l := by
      rw [hcl]
      exact List.mem_append_left _ hm
    rcases mem_cleaned_class l c hmem with h | h | h
    · exact Or.inl h
    · exact absurd (h ▸ hm) hca
    · exact Or.inr h
  have hbdig : ∀ c ∈ b, c.isDigit = true := by
    intro c hm
    have hmem : c ∈ cleaned l := by
      rw [hcl]
      exact List.mem_append_right _ (List.mem_cons_of_mem _ hm)
    rcases mem_cleaned_class l c hmem with h | h | h
    · exact h
    · exact absurd (h ▸ hm) hcb
    · exact absurd (h ▸ hm) hdb
  have hfalse : (cleaned l).isEmpty = false := by
    rw [hcl]; cases a <;> rfl
  have hcomma : lastIdx ',' (cleaned l) = some a.length := by
    rw [hcl]; exact lastIdx_append_cons ',' a b hcb
  have hdnotright : '.' ∉ ',' :: b := by
    intro hm
    rcases List.mem_cons.mp hm with h | h
    · exact absurd h (by decide)
    · exact hdb h
  by_cases hdot : '.' ∈ a
  · have hd2 : lastIdx '.' (cleaned l) = lastIdx '.' a := by
      rw [hcl]; exact lastIdx_append_right_no '.' a (',' :: b) hdnotright
    obtain ⟨j, hj⟩ : ∃ j, lastIdx '.' a = some j := by
      cases h : lastIdx '.' a with
      | none =>
        have hno := (lastIdx_eq_none_iff '.' a).mp h
        exact absurd hdot hno
      | some j => exact ⟨j, rfl⟩
    have hjl : j < a.length := lastIdx_lt_length '.' a j hj
    rw [hj] at hd2
    simp only [parse_price_textL, hfalse, Bool.false_eq_true, if_false,
      hcomma, hd2]
    rw [if_pos hjl, hcl]
    have hpb : b.filter (fun ch => ch ≠ '.') = b :=
      List.filter_eq_self.mpr fun c hc => digit_pred_ne_dot c (hbdig c hc)
    have hfa : (a ++ ',' :: b).filter (fun ch => ch ≠ '.')
        = (a.filter (fun ch => ch ≠ '.')) ++ ',' :: b := by
      rw [List.filter_append, List.filter_cons, if_pos (by decide), hpb]
    rw [hfa, commaToDot_append, commaToDot_cons_comma]
    have hnca : ',' ∉ a.filter (fun ch => ch ≠ '.') := by
      intro hm
      exact hca (List.mem_of_mem_filter hm)
    rw [commaToDot_no_comma _ hnca, commaToDot_no_comma _ hcb]
    have hfadig : ∀ c ∈ a.filter (fun ch => ch ≠ '.'), c.isDigit = true := by
      intro c hm
      have h1 := List.mem_of_mem_filter hm
      have h2 := List.of_mem_filter hm
      rcases haclass c h1 with h | h
      · exact h
      · rw [h] at h2
        exact absurd h2 (by decide)
    rw [decValOr0_decimal _ b hfadig hbdig,
      filter_ne_eq_filter_isDigit '.' (by decide) a haclass]
  · have hd2 : lastIdx '.' (cleaned l) = none := by
      refine (lastIdx_eq_none_iff _ _).mpr ?_
      rw [hcl]
      intro hm
      rcases List.mem_append.mp hm with h | h
      · exact hdot h
      · exact hdnotright h
    have hadig : ∀ c ∈ a, c.isDigit = true := by
      intro c hm
      rcases haclass c hm with h | h
      · exact h
      · exact absurd (h ▸ hm) hdot
    simp only [parse_price_textL, hfalse, Bool.false_eq_true, if_false,
      hcomma, hd2]
    rw [hcl, commaToDot_append, commaToDot_cons_comma,
      commaToDot_no_comma _ hca, commaToDot_no_comma _ hcb,
      decValOr0_decimal a b hadig hbdig, filter_digits_self a hadig]

theorem priceL_dot_last (l a b : List Char)
    (hcl : cleaned l = a ++ '.' :: b) (hcoma : ',' ∈ a) (hda : '.' ∉ a)
    (hdb : '.' ∉ b) (hcb : ',' ∉ b) :
    parse_price_textL l = (digitsVal (a.filter Char.isDigit) : ℚ) +
      (digitsVal b : ℚ) / 10 ^ b.length := by
  have haclass : ∀ c ∈ a, c.isDigit = true ∨ c = ',' := by
    intro c hm
    have hmem : c ∈ cleaned l := by
      rw [hcl]
      exact List.mem_append_left _ hm
    rcases mem_cleaned_class l c hmem with h | h | h
    · exact Or.inl h
    · exact Or.inr h
    · exact absurd (h ▸ hm) hda
  have hbdig : ∀ c ∈ b, c.isDigit = true := by
    intro c hm
    have hmem : c ∈ cleaned l := by
      rw [hcl]
      exact List.mem_append_right _ (List.mem_cons_of_mem _ hm)
    rcases mem_cleaned_class l c hmem with h | h | h
    · exact h
    · exact absurd (h ▸ hm) hcb
    · exact absurd (h ▸ hm) hdb
  have hfalse : (cleaned l).isEmpty = false := by
    rw [hcl]; cases a <;> rfl
  have hdot : lastIdx '.' (cleaned l) = some a.length := by
    rw [hcl]; exact lastIdx_append_cons '.' a b hdb
  have hcnotright : ',' ∉ '.' :: b := by
    intro hm
    rcases List.mem_cons.mp hm with h | h
    · exact absurd h (by decide)
    · exact hcb h
  have hc2 : lastIdx ',' (cleaned l) = lastIdx ',' a := by
    rw [hcl]; exact lastIdx_append_right_no ',' a ('.' :: b) hcnotright
  obtain ⟨k, hk⟩ : ∃ k, lastIdx ',' a = some k := by
    cases h : lastIdx ',' a with
    | none =>
      have hno := (lastIdx_eq_none_iff ',' a).mp h
      exact absurd hcoma hno
    | some k => exact ⟨k, rfl⟩
  have hkl : k < a.length := lastIdx_lt_length ',' a k hk
  rw [hk] at hc2
  simp only [parse_price_textL, hfalse, Bool.false_eq_true, if_false,
    hc2, hdot]
  rw [if_neg (by omega), hcl]
  have hpb : b.filter (fun ch => ch ≠ ',') = b := by
    refine List.filter_eq_self.mpr fun c hc => ?_
    exact decide_eq_true (isDigit_ne_of c ',' (hbdig c hc) (by decide))
  have hfa : (a ++ '.' :: b).filter (fun ch => ch ≠ ',')
      = (a.filter (fun ch => ch ≠ ',')) ++ '.' :: b := by
    rw [List.filter_append, List.filter_cons, if_pos (by decide), hpb]
  rw [hfa]
  have hfadig : ∀ c ∈ a.filter (fun ch => ch ≠ ','), c.isDigit = true := by
    intro c hm
    have h1 := List.mem_of_mem_filter hm
    have h2 := List.of_mem_filter hm
    rcases haclass c h1 with h | h
    · exact h
    · rw [h] at h2
      exact absurd h2 (by decide)
  rw [decValOr0_decimal _ b hfadig hbdig,
    filter_ne_eq_filter_isDigit ',' (by decide) a haclass]

/-- C1: the price-text parser keeps only digits, commas and dots; with
both separators present the rightmost one is the decimal point and the
other is stripped; with only commas present the (single) comma is the
decimal separator; with only dots present, more than one dot strips all
dots, exactly one dot with exactly 3 trailing digits strips it, and
exactly one dot with any other trailing-digit count is a decimal point;
with no separators the digits parse directly; empty input yields 0.
Concretely: "1.234,56" ↦ 1234.56, "1,234.56" ↦ 1234.56, "29,90" ↦ 29.90,
"R$ 1.234" ↦ 1234, "" ↦ 0. -/
theorem price_text_parser_spec :
    (parse_price_text "1.234,56" = 123456 / 100 ∧
      parse_price_text "1,234.56" = 123456 / 100 ∧
      parse_price_text "29,90" = 2990 / 100 ∧
      parse_price_text "R$ 1.234" = 1234 ∧
      parse_price_text "" = 0) ∧
    (∀ s : String, cleaned s.toList = [] → parse_price_text s = 0) ∧
    (∀ (s : String) (a b : List Char), cleaned s.toList = a ++ ',' :: b →
      ',' ∉ a → ',' ∉ b → '.' ∉ b →
      parse_price_text s = (digitsVal (a.filter Char.isDigit) : ℚ) +
        (digitsVal b : ℚ) / 10 ^ b.length) ∧
    (∀ (s : String) (a b : List Char), cleaned s.toList = a ++ '.' :: b →
      ',' ∈ a → '.' ∉ a → '.' ∉ b → ',' ∉ b →
      parse_price_text s = (digitsVal (a.filter Char.isDigit) : ℚ) +
        (digitsVal b : ℚ) / 10 ^ b.length) ∧
    (∀ s : String, ',' ∉ cleaned s.toList →
      (cleaned s.toList).count '.' > 1 →
      parse_price_text s
        = (digitsVal ((cleaned s.toList).filter Char.isDigit) : ℚ)) ∧
    (∀ (s : String) (a b : List Char), cleaned s.toList = a ++ '.' :: b →
      ',' ∉ a → ',' ∉ b → '.' ∉ a → '.' ∉ b →
      parse_price_text s =
        if b.length = 3 then (digitsVal (a ++ b) : ℚ)
        else (digitsVal a : ℚ) + (digitsVal b : ℚ) / 10 ^ b.length) ∧
    (∀ s : String, ',' ∉ cleaned s.toList → '.' ∉ cleaned s.toList →
      parse_price_text s = (digitsVal (cleaned s.toList) : ℚ)) := by
  refine ⟨⟨?_, ?_, ?_, ?_, ?_⟩, ?_, ?_, ?_, ?_, ?_, ?_⟩
  · have h : parse_price_text "1.234,56"
        = ((1234 : ℕ) : ℚ) + ((56 : ℕ) : ℚ) / 10 ^ 2 := rfl
    rw [h]; push_cast; norm_num
  · have h : parse_price_text "1,234.56"
        = ((1234 : ℕ) : ℚ) + ((56 : ℕ) : ℚ) / 10 ^ 2 := rfl
    rw [h]; push_cast; norm_num
  · have h : parse_price_text "29,90"
        = ((29 : ℕ) : ℚ) + ((90 : ℕ) : ℚ) / 10 ^ 2 := rfl
    rw [h]; push_cast; norm_num
  · have h : parse_price_text "R$ 1.234"
        = ((1234 : ℕ) : ℚ) + ((0 : ℕ) : ℚ) / 10 ^ 0 := rfl
    rw [h]; push_cast; norm_num
  · rfl
  · exact fun s h => priceL_empty s.toList h
  · exact fun s a b h1 h2 h3 h4 => priceL_comma_last s.toList a b h1 h2 h3 h4
  · exact fun s a b h1 h2 h3 h4 h5 =>
      priceL_dot_last s.toList a b h1 h2 h3 h4 h5
  · exact fun s h1 h2 => priceL_multi_dot s.toList h1 h2
  · exact fun s a b h1 h2 h3 h4 h5 =>
      priceL_one_dot s.toList a b h1 h2 h3 h4 h5
  · exact fun s h1 h2 => priceL_no_sep s.toList h1 h2

/-- Witness for C1: the comma-as-decimal-separator clause at the
concrete input "3,14". -/
theorem price_text_parser_spec_witness :
    parse_price_text "3,14" = (digitsVal (['3'].filter Char.isDigit) : ℚ) +
      (digitsVal ['1', '4'] : ℚ) / 10 ^ (['1', '4'] : List Char).length :=
  price_text_parser_spec.2.2.1 "3,14" ['3'] ['1', '4'] (by decide)
    (by decide) (by decide) (by decide)

/-! ### C7: the sales-count parser -/

theorem dropWhile_beq_eq_self (c : Char) (l : List Char) (h : c ∉ l) :
    l.dropWhile (fun x => x == c) = l := by
  cases l with
  | nil => rfl
  | cons a t =>
    rw [List.dropWhile_cons, if_neg]
    simp only [beq_iff_eq]
    intro hac
    exact h (hac ▸ List.mem_cons_self a t)

theorem trimEndMatches_eq_self (c : Char) (l : List Char) (h : c ∉ l) :
    trimEndMatches c l = l := by
  unfold trimEndMatches
  rw [dropWhile_beq_eq_self c l.reverse (by simpa using h), List.reverse_reverse]

theorem dropWhile_replicate_append (c : Char) (n : Nat) (r : List Char) :
    (List.replicate n c ++ r).dropWhile (fun x => x == c)
      = r.dropWhile (fun x => x == c) := by
  induction n with
  | zero => rfl
  | succ n ih =>
    rw [List.replicate_succ, List.cons_append, List.dropWhile_cons,
      if_pos (by simp)]
    exact ih

theorem trimEndMatches_append_replicate (c : Char) (w : List Char) (n : Nat)
    (h : c ∉ w) :
    trimEndMatches c (w ++ List.replicate n c) = w := by
  unfold trimEndMatches
  rw [List.reverse_append, List.reverse_replicate, dropWhile_replicate_append,
    dropWhile_beq_eq_self c w.reverse (by simpa using h), List.reverse_reverse]

theorem contains_eq_true_of_mem (c : Char) (l : List Char) (h : c ∈ l) :
    l.contains c = true := by
  show l.elem c = true
  exact List.elem_iff.mpr h

theorem contains_eq_false_of_not_mem (c : Char) (l : List Char) (h : c ∉ l) :
    l.contains c = false := by
  show l.elem c = false
  cases hb : l.elem c with
  | false => rfl
  | true => exact absurd (List.elem_iff.mp hb) h

/-- No `k`/`m` marker anywhere: `parse_sales_text` strips the input down to
its digits (parser.rs:438-441), with empty-digit and `i32`-overflow inputs
collapsing to `0` (`unwrap_or(0)`). -/
theorem salesL_no_suffix (text : List Char)
    (hk : 'k' ∉ text.map asciiLower) (hm : 'm' ∉ text.map asciiLower) :
    parse_sales_textL text =
      if (text.filter Char.isDigit).isEmpty then 0
      else if (digitsVal (text.filter Char.isDigit) : Int) > i32Max then 0
      else (digitsVal (text.filter Char.isDigit) : Int) := by
  have hck := contains_eq_false_of_not_mem 'k' _ hk
  have hcm := contains_eq_false_of_not_mem 'm' _ hm
  simp only [parse_sales_textL, hck, hcm, Bool.false_eq_true, if_false]
  rw [if_neg (by norm_num)]

/-- A (possibly repeated) trailing `k` in the lowercased text, no other
`k`/`m` anywhere, with the remainder parsing as a float: multiply by 1000
and cast (parser.rs:417-436). -/
theorem salesL_k_suffix (text w : List Char) (n : Nat) (v : ℚ)
    (hl : text.map asciiLower = w ++ List.replicate (n + 1) 'k')
    (hkw : 'k' ∉ w) (hmw : 'm' ∉ w)
    (hp : parseSignedDec (commaToDot (trimWs w)) = some v) :
    parse_sales_textL text = ratToI32 (v * 1000) := by
  have hck : (text.map asciiLower).contains 'k' = true := by
    rw [hl]
    exact contains_eq_true_of_mem _ _ (by simp)
  have ht1 : trimEndMatches 'k' (text.map asciiLower) = w := by
    rw [hl]
    exact trimEndMatches_append_replicate 'k' w (n + 1) hkw
  have ht2 : trimEndMatches 'm' w = w := trimEndMatches_eq_self 'm' w hmw
  simp only [parse_sales_textL, hck, if_true, ht1, ht2, hp]
  rw [if_pos (by norm_num)]

/-- A (possibly repeated) trailing `m` in the lowercased text, no other
`k`/`m` anywhere, with the remainder parsing as a float: multiply by
1000000 and cast (parser.rs:417-436). -/
theorem salesL_m_suffix (text w : List Char) (n : Nat) (v : ℚ)
    (hl : text.map asciiLower = w ++ List.replicate (n + 1) 'm')
    (hkw : 'k' ∉ w) (hmw : 'm' ∉ w)
    (hp : parseSignedDec (commaToDot (trimWs w)) = some v) :
    parse_sales_textL text = ratToI32 (v * 1000000) := by
  have hknot : 'k' ∉ text.map asciiLower := by
    rw [hl]
    intro hmem
    rcases List.mem_append.mp hmem with h1 | h2
    · exact hkw h1
    · exact absurd (List.mem_replicate.mp h2).2 (by decide)
  have hck := contains_eq_false_of_not_mem 'k' _ hknot
  have hcm : (text.map asciiLower).contains 'm' = true := by
    rw [hl]
    exact contains_eq_true_of_mem _ _ (by simp)
  have ht1 : trimEndMatches 'k' (text.map asciiLower) = text.map asciiLower :=
    trimEndMatches_eq_self 'k' _ hknot
  have ht2 : trimEndMatches 'm' (text.map asciiLower) = w := by
    rw [hl]
    exact trimEndMatches_append_replicate 'm' w (n + 1) hmw
  simp only [parse_sales_textL, hck, hcm, Bool.false_eq_true, if_false,
    if_true, ht1, ht2, hp]
  rw [if_pos (by norm_num)]

/-- A digit-free input whose normalised numeric part does not parse yields
`0` on every path of `parse_sales_text`. -/
theorem salesL_unparseable (text : List Char)
    (hd : text.filter Char.isDigit = [])
    (hp : parseSignedDec (commaToDot (trimWs (trimEndMatches 'm'
      (trimEndMatches 'k' (text.map asciiLower))))) = none) :
    parse_sales_textL text = 0 := by
  simp only [parse_sales_textL, hp, hd, List.isEmpty_nil, if_true]
  split <;> simp only [ite_self]

/-- C7: the sales-count parser: a case-insensitive trailing `k` multiplies
the numeric portion (comma normalised to a dot) by 1000 and a trailing `m`
multiplies it by 1000000, with the product cast to `i32`; with no `k`/`m`
all non-digit characters are stripped and the remaining digits parsed as an
`i32` (`unwrap_or(0)`); digit-free unparseable input yields 0. Concretely:
"1.5k" ↦ 1500, "2M" ↦ 2000000, "1.234" ↦ 1234, "" ↦ 0. -/
theorem sales_text_parser_spec :
    (parse_sales_text "1.5k" = 1500 ∧ parse_sales_text "2M" = 2000000 ∧
      parse_sales_text "1.234" = 1234 ∧ parse_sales_text "" = 0) ∧
    (∀ (s : String) (w : List Char) (n : Nat) (v : ℚ),
      s.toList.map asciiLower = w ++ List.replicate (n + 1) 'k' →
      'k' ∉ w → 'm' ∉ w →
      parseSignedDec (commaToDot (trimWs w)) = some v →
      parse_sales_text s = ratToI32 (v * 1000)) ∧
    (∀ (s : String) (w : List Char) (n : Nat) (v : ℚ),
      s.toList.map asciiLower = w ++ List.replicate (n + 1) 'm' →
      'k' ∉ w → 'm' ∉ w →
      parseSignedDec (commaToDot (trimWs w)) = some v →
      parse_sales_text s = ratToI32 (v * 1000000)) ∧
    (∀ s : String, 'k' ∉ s.toList.map asciiLower →
      'm' ∉ s.toList.map asciiLower →
      parse_sales_text s =
        if (s.toList.filter Char.isDigit).isEmpty then 0
        else if (digitsVal (s.toList.filter Char.isDigit) : Int) > i32Max
          then 0
        else (digitsVal (s.toList.filter Char.isDigit) : Int)) ∧
    (∀ s : String, s.toList.filter Char.isDigit = [] →
      parseSignedDec (commaToDot (trimWs (trimEndMatches 'm'
        (trimEndMatches 'k' (s.toList.map asciiLower))))) = none →
      parse_sales_text s = 0) := by
  refine ⟨⟨?_, ?_, ?_, ?_⟩, ?_, ?_, ?_, ?_⟩
  · have h : parse_sales_text "1.5k"
        = ratToI32 ((((1 : ℕ) : ℚ) + ((5 : ℕ) : ℚ) / 10 ^ 1) * 1000) := rfl
    rw [h]; norm_num [ratToI32, i32Max, i32Min]
  · have h : parse_sales_text "2M"
        = ratToI32 ((((2 : ℕ) : ℚ) + ((0 : ℕ) : ℚ) / 10 ^ 0) * 1000000) := rfl
    rw [h]; norm_num [ratToI32, i32Max, i32Min]
  · rfl
  · rfl
  · exact fun s w n v h1 h2 h3 h4 => salesL_k_suffix s.toList w n v h1 h2 h3 h4
  · exact fun s w n v h1 h2 h3 h4 => salesL_m_suffix s.toList w n v h1 h2 h3 h4
  · exact fun s h1 h2 => salesL_no_suffix s.toList h1 h2
  · exact fun s h1 h2 => salesL_unparseable s.toList h1 h2

/-- Witness for C7: the `k`-suffix clause at the concrete input "1.5k". -/
theorem sales_text_parser_spec_witness :
    parse_sales_text "1.5k"
      = ratToI32 ((((1 : ℕ) : ℚ) + ((5 : ℕ) : ℚ) / 10 ^ 1) * 1000) :=
  sales_text_parser_spec.2.1 "1.5k" "1.5".toList 0
    (((1 : ℕ) : ℚ) + ((5 : ℕ) : ℚ) / 10 ^ 1) rfl (by decide) (by decide) rfl

end Scraper
